import Mathlib

/-!
Verification development for the instrumentation-based PGO engine of
gen/pgo.cpp (counter mapping, control-flow hashing, count propagation,
profile loading and branch-weight synthesis).

Machine integers (`uint64_t`, `uint32_t`) are modelled as `Nat` with
explicit reduction modulo `2 ^ 64` at every operation where wrap-around
can occur.  The AST node pointers used as `DenseMap` keys are modelled as
`Nat` identities carried by each node; maps are insertion-ordered
association lists with `DenseMap`'s update-or-insert semantics.
-/

namespace LdcPgo

/-! ## 64-bit arithmetic -/

/-- The modulus `2 ^ 64` of `uint64_t` arithmetic. -/
def W : Nat := 2 ^ 64

/-- Addition of `uint64_t` values. -/
def uadd (a b : Nat) : Nat := (a + b) % W

/-- Subtraction of `uint64_t` values (wrap-around semantics). -/
def usub (a b : Nat) : Nat := (a % W + W - b % W) % W

/-- The constant `UINT32_MAX`. -/
def UINT32_MAX : Nat := 4294967295

/-! ## Insertion-ordered association lists with `llvm::DenseMap` semantics

`m[k] = v` on a `DenseMap` overwrites the entry when the key is present and
appends a fresh entry otherwise. -/

/-- Assignment `DenseMap::operator[] = v`: update in place when the key is
present, append otherwise. -/
def mapInsert (m : List (Nat × Nat)) (k v : Nat) : List (Nat × Nat) :=
  if (m.lookup k).isSome then
    m.map (fun p => if p.1 = k then (k, v) else p)
  else m ++ [(k, v)]

/-! ## PGOHash (stable control-flow hasher)

`PGOHash` packs 6-bit tokens into a 64-bit accumulator `Working`; every time
there are `NumTypesPerWord` tokens of built-up work the accumulator is folded
into an MD5 digest.  The external `llvm::MD5` digest is abstracted as a
function from the list of folded 64-bit words to a 64-bit value (the byte-order
normalization applied to each folded word before the external digest update is
a representation-level concern of the external MD5 and is not modelled). -/

/-- The constant `PGOHash::NumBitsPerType`. -/
def NumBitsPerType : Nat := 6

/-- The constant `PGOHash::NumTypesPerWord = 64 / 6 = 10`. -/
def NumTypesPerWord : Nat := 64 / NumBitsPerType

/-- Hash token alphabet (`PGOHash::HashType`); `None = 0` is reserved invalid. -/
inductive HashType where
  | LabelStmt | WhileStmt | DoStmt | ForStmt | ForeachStmt | ForeachRangeStmt
  | SwitchStmt | CaseStmt | DefaultStmt | CaseGoto | IfStmt | TryCatchStmt
  | TryCatchCatch | TryFinallyStmt | ConditionalExpr | AndAndExpr | OrOrExpr
deriving DecidableEq, Repr

/-- The stable enumeration value of each token (`None = 0` reserved). -/
def HashType.code : HashType → Nat
  | .LabelStmt => 1
  | .WhileStmt => 2
  | .DoStmt => 3
  | .ForStmt => 4
  | .ForeachStmt => 5
  | .ForeachRangeStmt => 6
  | .SwitchStmt => 7
  | .CaseStmt => 8
  | .DefaultStmt => 9
  | .CaseGoto => 10
  | .IfStmt => 11
  | .TryCatchStmt => 12
  | .TryCatchCatch => 13
  | .TryFinallyStmt => 14
  | .ConditionalExpr => 15
  | .AndAndExpr => 16
  | .OrOrExpr => 17

/-- State of `PGOHash`: the packed accumulator, the token count, and the
sequence of 64-bit words folded into the external MD5 digest so far. -/
structure PGOHashState where
  Working : Nat
  Count : Nat
  md5 : List Nat
deriving DecidableEq, Repr

/-- The freshly constructed hasher (`PGOHash()`). -/
def PGOHash.init : PGOHashState := ⟨0, 0, []⟩

/-- Model of `PGOHash::combine`: fold the accumulator into the digest when a full word
of work has built up, then shift the 6-bit token into the accumulator. -/
def PGOHash.combine (t : Nat) (st : PGOHashState) : PGOHashState :=
  let st' :=
    if st.Count ≠ 0 ∧ st.Count % NumTypesPerWord = 0 then
      { st with md5 := st.md5 ++ [st.Working], Working := 0 }
    else st
  { st' with Count := st'.Count + 1,
             Working := (st'.Working <<< NumBitsPerType ||| t) % W }

/-- Combine a whole token sequence in order. -/
def PGOHash.combineList (ts : List Nat) (st : PGOHashState) : PGOHashState :=
  ts.foldl (fun s t => PGOHash.combine t s) st

/-- Model of `PGOHash::finalize`, parameterized by the abstract MD5 digest (list of
folded words to the first 8 bytes of the final digest): return the packed
accumulator directly when all tokens fit one word, otherwise fold any
remaining work and return the digest. -/
def PGOHash.finalize (digest : List Nat → Nat) (st : PGOHashState) : Nat :=
  if st.Count ≤ NumTypesPerWord then st.Working
  else digest (if st.Working ≠ 0 then st.md5 ++ [st.Working] else st.md5)

/-! ## The AST fragment

Expressions carry the three expression kinds that anchor region counters
(`CondExp`, `AndAndExp`, `OrOrExp`); `atomE` stands for any expression without
embedded control flow.  Statements carry the statement kinds relevant to the
claims.  An `IfStatement` with and without `elsebody` are two constructors
(`ifS` / `ifnS`), a `TryCatchStatement` carries its list of `Catch` clauses as
the mutually inductive `Catches`, and `nestedFuncS` is a declaration statement
introducing a nested `FuncDeclaration`.  Each node carries its identity
(the pointer used as map key in C++). -/

inductive Expr where
  | atomE (id : Nat)
  | condE (id : Nat) (econd e1 e2 : Expr)
  | andandE (id : Nat) (e1 e2 : Expr)
  | ororE (id : Nat) (e1 e2 : Expr)
deriving Repr

mutual
inductive Stmt where
  | expS (id : Nat) (e : Expr)
  | compoundS (id : Nat) (s1 s2 : Stmt)
  | ifS (id : Nat) (condition : Expr) (ifbody elsebody : Stmt)
  | ifnS (id : Nat) (condition : Expr) (ifbody : Stmt)
  | whileS (id : Nat) (condition : Expr) (body : Stmt)
  | doS (id : Nat) (body : Stmt) (condition : Expr)
  | returnS (id : Nat) (e : Expr)
  | breakS (id : Nat)
  | continueS (id : Nat)
  | tryCatchS (id : Nat) (body : Stmt) (catches : Catches)
  | nestedFuncS (id : Nat) (fbody : Stmt)
inductive Catches where
  | nil
  | cons (id : Nat) (handler : Stmt) (rest : Catches)
end

/-- The identity (pointer) of an expression node. -/
def exprId : Expr → Nat
  | .atomE id => id
  | .condE id _ _ _ => id
  | .andandE id _ _ => id
  | .ororE id _ _ => id

/-- All node identities in an expression (head is the node's own identity). -/
def exprIds : Expr → List Nat
  | .atomE id => [id]
  | .condE id ec e1 e2 => id :: (exprIds ec ++ exprIds e1 ++ exprIds e2)
  | .andandE id e1 e2 => id :: (exprIds e1 ++ exprIds e2)
  | .ororE id e1 e2 => id :: (exprIds e1 ++ exprIds e2)

/-- Identities of the proper subexpressions of an expression. -/
def exprSubIds (e : Expr) : List Nat := (exprIds e).tail

/-- The identity (pointer) of a statement node. -/
def stmtId : Stmt → Nat
  | .expS id _ => id
  | .compoundS id _ _ => id
  | .ifS id _ _ _ => id
  | .ifnS id _ _ => id
  | .whileS id _ _ => id
  | .doS id _ _ => id
  | .returnS id _ => id
  | .breakS id => id
  | .continueS id => id
  | .tryCatchS id _ _ => id
  | .nestedFuncS id _ => id

mutual
/-- All node identities in a statement (head is the node's own identity). -/
def stmtIds : Stmt → List Nat
  | .expS id e => id :: exprIds e
  | .compoundS id s1 s2 => id :: (stmtIds s1 ++ stmtIds s2)
  | .ifS id c tb eb => id :: (exprIds c ++ stmtIds tb ++ stmtIds eb)
  | .ifnS id c tb => id :: (exprIds c ++ stmtIds tb)
  | .whileS id c b => id :: (exprIds c ++ stmtIds b)
  | .doS id b c => id :: (stmtIds b ++ exprIds c)
  | .returnS id e => id :: exprIds e
  | .breakS id => [id]
  | .continueS id => [id]
  | .tryCatchS id b cs => id :: (stmtIds b ++ catchIds cs)
  | .nestedFuncS id fb => id :: stmtIds fb
/-- All node identities in a list of catch clauses. -/
def catchIds : Catches → List Nat
  | .nil => []
  | .cons cid h rest => cid :: (stmtIds h ++ catchIds rest)
end

/-- Identities of the proper children of a statement. -/
def stmtSubIds (s : Stmt) : List Nat := (stmtIds s).tail

/-! ## MapRegionCounters (the mapping pass)

State of `MapRegionCounters`: the next counter to assign, the
statement-to-counter map, and the ordered sequence of tokens fed to
`Hash.combine` (the function hash is `PGOHash.finalize` of that sequence). -/

structure MapState where
  NextCounter : Nat
  CounterMap : List (Nat × Nat)
  tokens : List HashType
deriving Repr

/-- First-visit body shared by all counter-anchoring visits:
`CounterMap[node] = NextCounter++; Hash.combine(t)`. -/
def MapState.assign (st : MapState) (k : Nat) (t : HashType) : MapState :=
  { NextCounter := st.NextCounter + 1,
    CounterMap := mapInsert st.CounterMap k st.NextCounter,
    tokens := st.tokens ++ [t] }

/-- The assignment of the function-entry counter in `visit(FuncDeclaration)`:
`CounterMap[fd->fbody] = NextCounter++` with no hash token. -/
def MapState.assignNoHash (st : MapState) (k : Nat) : MapState :=
  { st with NextCounter := st.NextCounter + 1,
            CounterMap := mapInsert st.CounterMap k st.NextCounter }

/-- The `SKIP_VISITED` guard followed by the first-visit body. -/
def MapState.visitOnce (st : MapState) (k : Nat) (t : HashType) : MapState :=
  if (st.CounterMap.lookup k).isSome then st else st.assign k t

/-- The catch-clause loop of `MapRegionCounters::visit(TryCatchStatement)`:
`for (auto c : *stmt->catches) { CounterMap[c] = NextCounter++;
Hash.combine(TryCatchCatch); }`. -/
def assignCatches : Catches → MapState → MapState
  | .nil, st => st
  | .cons cid _ rest, st => assignCatches rest (st.assign cid .TryCatchCatch)

/-- Walk of `MapRegionCounters` over an expression: the walker visits the node
(running the matching `visit` override) and then recurses into the children. -/
def mapExpr : Expr → MapState → MapState
  | .atomE _, st => st
  | .condE id ec e1 e2, st =>
      mapExpr e2 (mapExpr e1 (mapExpr ec (st.visitOnce id .ConditionalExpr)))
  | .andandE id e1 e2, st =>
      mapExpr e2 (mapExpr e1 (st.visitOnce id .AndAndExpr))
  | .ororE id e1 e2, st =>
      mapExpr e2 (mapExpr e1 (st.visitOnce id .OrOrExpr))

mutual
/-- Modelled from the spec: the statement walker driving `MapRegionCounters`
(`RecursiveWalker` of gen/recursivevisitor.h, not among the sources) is a
pre-order depth-first walk — it runs the visitor on a node and then recurses
into the node's children in declaration order (§4.2 "one depth-first walk";
the source comment at `visit(TryCatchStatement)` confirms counters are
obtained "before recursing into the counter handlers").  The `visit`
overrides themselves are translated from gen/pgo.cpp: statements without an
override anchor no counter; a nested `FuncDeclaration` stops the walk into
its own subtree only. -/
def mapStmt : Stmt → MapState → MapState
  | .expS _ e, st => mapExpr e st
  | .compoundS _ s1 s2, st => mapStmt s2 (mapStmt s1 st)
  | .ifS id c tb eb, st =>
      mapStmt eb (mapStmt tb (mapExpr c (st.visitOnce id .IfStmt)))
  | .ifnS id c tb, st =>
      mapStmt tb (mapExpr c (st.visitOnce id .IfStmt))
  | .whileS id c b, st =>
      mapStmt b (mapExpr c (st.visitOnce id .WhileStmt))
  | .doS id b c, st =>
      mapExpr c (mapStmt b (st.visitOnce id .DoStmt))
  | .returnS _ e, st => mapExpr e st
  | .breakS _, st => st
  | .continueS _, st => st
  | .tryCatchS id b cs, st =>
      let st' := if (st.CounterMap.lookup id).isSome then st
                 else assignCatches cs (st.assign id .TryCatchStmt)
      mapCatches cs (mapStmt b st')
  | .nestedFuncS _ fb, st =>
      if st.NextCounter ≠ 0 then st
      else mapStmt fb (st.assignNoHash (stmtId fb))
/-- The walker's recursion into the handlers of the catch clauses. -/
def mapCatches : Catches → MapState → MapState
  | .nil, st => st
  | .cons _ h rest, st => mapCatches rest (mapStmt h st)
end

/-- Model of `CodeGenPGO::mapRegionCounters` on a function whose body is `fbody`:
fresh map, `visit(FuncDeclaration)` assigns counter 0 to the body's entry,
then the walk descends into the body.  `NumRegionCounters` is the resulting
`NextCounter`. -/
def mapRegionCounters (fbody : Stmt) : MapState :=
  mapStmt fbody ((MapState.mk 0 [] []).assignNoHash (stmtId fbody))

/-- The `FunctionHash` produced by the mapping pass, for an abstract digest. -/
def functionHash (digest : List Nat → Nat) (fbody : Stmt) : Nat :=
  PGOHash.finalize digest
    (PGOHash.combineList ((mapRegionCounters fbody).tokens.map HashType.code)
      PGOHash.init)

/-! ## ComputeRegionCounts (the counting pass) -/

/-- One `BreakContinue` frame of the `BreakContinueStack`. -/
structure BreakContinue where
  BreakCount : Nat
  ContinueCount : Nat
deriving DecidableEq, Repr

/-- State of `ComputeRegionCounts`.  The stack's head is the innermost frame
(`push_back` is modelled by `cons`).  Region counts (`PGO.getRegionCount`)
are supplied as a function `rc` from node identity to the raw 64-bit counter
value. -/
structure CountState where
  CurrentCount : Nat
  RecordNextStmtCount : Bool
  CountMap : List (Nat × Nat)
  stack : List BreakContinue
deriving Repr

/-- Model of `ComputeRegionCounts::RecordStmtCount`. -/
def recordStmt (id : Nat) (st : CountState) : CountState :=
  if st.RecordNextStmtCount then
    { st with CountMap := mapInsert st.CountMap id st.CurrentCount,
              RecordNextStmtCount := false }
  else st

/-- Model of `BreakContinueStack.pop_back_val()` (the stack is never empty when the
source pops: a loop pops only the frame it pushed). -/
def popBC (st : CountState) : BreakContinue × CountState :=
  match st.stack with
  | [] => (⟨0, 0⟩, st)
  | bc :: rest => (bc, { st with stack := rest })

/-- Walk of `ComputeRegionCounts` over expressions (`visit(CondExp)`,
`visit(AndAndExp)`, `visit(OrOrExp)`; expressions without an override
leave the state unchanged). -/
def countExpr (rc : Nat → Nat) : Expr → CountState → CountState
  | .atomE _, st => st
  | .condE id ec e1 e2, st =>
      let st := recordStmt id st
      let P := st.CurrentCount
      let st := countExpr rc ec st
      let T := rc id % W
      let st := countExpr rc e1
        { st with CurrentCount := T,
                  CountMap := mapInsert st.CountMap (exprId e1) T }
      let OutT := st.CurrentCount
      let F := usub P T
      let st := countExpr rc e2
        { st with CurrentCount := F,
                  CountMap := mapInsert st.CountMap (exprId e2) F }
      { st with CurrentCount := uadd OutT st.CurrentCount,
                RecordNextStmtCount := true }
  | .andandE id e1 e2, st =>
      let st := recordStmt id st
      let P := st.CurrentCount
      let st := countExpr rc e1 st
      let R := rc id % W
      let st := countExpr rc e2
        { st with CurrentCount := R,
                  CountMap := mapInsert st.CountMap (exprId e2) R }
      { st with CurrentCount := usub (uadd P R) st.CurrentCount,
                RecordNextStmtCount := true }
  | .ororE id e1 e2, st =>
      let st := recordStmt id st
      let P := st.CurrentCount
      let st := countExpr rc e1 st
      let R := rc id % W
      let st := countExpr rc e2
        { st with CurrentCount := R,
                  CountMap := mapInsert st.CountMap (exprId e2) R }
      { st with CurrentCount := usub (uadd P R) st.CurrentCount,
                RecordNextStmtCount := true }

mutual
/-- Walk of `ComputeRegionCounts` over statements; each case is translated from the
matching `visit` override of gen/pgo.cpp.  Plain statements
(`visit(Statement)`) record the pending count; compound statements visit
their children in order (traversal of unhandled nodes is the depth-first
order of §4.3); a nested function declaration is not descended into
(nested functions are counted independently, §4.2). -/
def countStmt (rc : Nat → Nat) : Stmt → CountState → CountState
  | .expS id e, st => countExpr rc e (recordStmt id st)
  | .compoundS id s1 s2, st => countStmt rc s2 (countStmt rc s1 (recordStmt id st))
  | .ifS id c tb eb, st =>
      let st := recordStmt id st
      let P := st.CurrentCount
      let st := countExpr rc c st
      let T := rc id % W
      let st := countStmt rc tb
        { st with CurrentCount := T,
                  CountMap := mapInsert st.CountMap (stmtId tb) T }
      let OutT := st.CurrentCount
      let E := usub P T
      let st := countStmt rc eb
        { st with CurrentCount := E,
                  CountMap := mapInsert st.CountMap (stmtId eb) E }
      { st with CurrentCount := uadd OutT st.CurrentCount,
                RecordNextStmtCount := true }
  | .ifnS id c tb, st =>
      let st := recordStmt id st
      let P := st.CurrentCount
      let st := countExpr rc c st
      let T := rc id % W
      let st := countStmt rc tb
        { st with CurrentCount := T,
                  CountMap := mapInsert st.CountMap (stmtId tb) T }
      let OutT := st.CurrentCount
      let E := usub P T
      { st with CurrentCount := uadd OutT E,
                RecordNextStmtCount := true }
  | .whileS id c b, st =>
      let st := recordStmt id st
      let P := st.CurrentCount
      let B := rc id % W
      let st := countStmt rc b
        { st with CurrentCount := B,
                  CountMap := mapInsert st.CountMap (stmtId b) B,
                  stack := ⟨0, 0⟩ :: st.stack }
      let Back := st.CurrentCount
      let BCst := popBC st
      let BC := BCst.1
      let st := BCst.2
      let Cond := uadd (uadd P Back) BC.ContinueCount
      let st := countExpr rc c
        { st with CurrentCount := Cond,
                  CountMap := mapInsert st.CountMap (exprId c) Cond }
      { st with CurrentCount := usub (uadd BC.BreakCount Cond) B,
                RecordNextStmtCount := true }
  | .doS id b c, st =>
      let st := recordStmt id st
      let F := st.CurrentCount
      let B := rc id % W
      let st := countStmt rc b
        { st with CurrentCount := B,
                  CountMap := mapInsert st.CountMap (stmtId b) B,
                  stack := ⟨0, 0⟩ :: st.stack }
      let Back := st.CurrentCount
      let BCst := popBC st
      let BC := BCst.1
      let st := BCst.2
      let Cond := uadd Back BC.ContinueCount
      let st := countExpr rc c
        { st with CurrentCount := Cond,
                  CountMap := mapInsert st.CountMap (exprId c) Cond }
      let Loop := usub B F
      { st with CurrentCount := usub (uadd BC.BreakCount Cond) Loop,
                RecordNextStmtCount := true }
  | .returnS id e, st =>
      let st := countExpr rc e (recordStmt id st)
      { st with CurrentCount := 0, RecordNextStmtCount := true }
  | .breakS id, st =>
      let st := recordStmt id st
      let st :=
        match st.stack with
        | [] => st
        | bc :: rest =>
            { st with stack :=
                { bc with BreakCount := uadd bc.BreakCount st.CurrentCount } :: rest }
      { st with CurrentCount := 0, RecordNextStmtCount := true }
  | .continueS id, st =>
      let st := recordStmt id st
      let st :=
        match st.stack with
        | [] => st
        | bc :: rest =>
            { st with stack :=
                { bc with ContinueCount := uadd bc.ContinueCount st.CurrentCount } :: rest }
      { st with CurrentCount := 0, RecordNextStmtCount := true }
  | .tryCatchS id b cs, st =>
      let st := recordStmt id st
      let st := countStmt rc b { st with RecordNextStmtCount := true }
      let st := countCatches rc cs st
      { st with CurrentCount := rc id % W, RecordNextStmtCount := true }
  | .nestedFuncS id _, st => recordStmt id st
/-- The catch-clause loop of `visit(TryCatchStatement)`: each catch counter
tracks the entry of its handler. -/
def countCatches (rc : Nat → Nat) : Catches → CountState → CountState
  | .nil, st => st
  | .cons cid h rest, st =>
      countCatches rc rest
        (countStmt rc h
          { st with CurrentCount := rc cid % W, RecordNextStmtCount := true })
end

/-- Model of `CodeGenPGO::computeRegionCounts` via `visit(FuncDeclaration)`:
the entry counter tracks entry to the function body. -/
def computeRegionCounts (rc : Nat → Nat) (fbody : Stmt) : CountState :=
  countStmt rc fbody
    { CurrentCount := rc (stmtId fbody) % W,
      RecordNextStmtCount := false,
      CountMap := [(stmtId fbody, rc (stmtId fbody) % W)],
      stack := [] }

/-! ## Weight synthesis -/

/-- Model of `calculateWeightScale`: the divisor that scales all weights strictly
below `UINT32_MAX`... (the comparison is `MaxWeight < UINT32_MAX`). -/
def calculateWeightScale (MaxWeight : Nat) : Nat :=
  if MaxWeight < UINT32_MAX then 1 else MaxWeight / UINT32_MAX + 1

/-- Model of `scaleBranchWeight`: scale a 64-bit weight down and add 1
(Laplace's rule of succession). -/
def scaleBranchWeight (Weight Scale : Nat) : Nat := Weight / Scale + 1

/-- Model of `CodeGenPGO::createProfileWeights(TrueCount, FalseCount)`: `none` models
the `nullptr` return ("no weights"); otherwise the pair of scaled weights
passed to `MDBuilder::createBranchWeights`. -/
def createProfileWeights (TrueCount FalseCount : Nat) : Option (Nat × Nat) :=
  if TrueCount = 0 ∧ FalseCount = 0 then none
  else
    let Scale := calculateWeightScale (max TrueCount FalseCount)
    some (scaleBranchWeight TrueCount Scale, scaleBranchWeight FalseCount Scale)

/-- The branch-weight pair a loop adapter passes to `createProfileWeights`:
`(LoopCount, std::max(CondCount, LoopCount) - LoopCount)`. -/
def loopBranchWeights (CondCount LoopCount : Nat) : Nat × Nat :=
  (LoopCount, max CondCount LoopCount - LoopCount)

/-- Model of `CodeGenPGO::createProfileWeightsWhileLoop`, with the profile-data
presence flag (`haveRegionCounts()`) and the condition count recorded for
the loop's condition (`getStmtCount(Cond)`) supplied as arguments. -/
def createProfileWeightsWhileLoop (haveCounts : Bool) (CondCount LoopCount : Nat) :
    Option (Nat × Nat) :=
  if !haveCounts then none
  else if CondCount = 0 then none
  else createProfileWeights (loopBranchWeights CondCount LoopCount).1
        (loopBranchWeights CondCount LoopCount).2

/-- Model of `CodeGenPGO::createProfileWeightsForLoop` (the loop count is the `for`
statement's region count; the condition count is the recorded count of the
condition, or of the synthetic slot-1 counter when the condition is null). -/
def createProfileWeightsForLoop (haveCounts : Bool) (LoopCount CondCount : Nat) :
    Option (Nat × Nat) :=
  if !haveCounts then none
  else if CondCount = 0 then none
  else createProfileWeights (loopBranchWeights CondCount LoopCount).1
        (loopBranchWeights CondCount LoopCount).2

/-- Model of `CodeGenPGO::createProfileWeightsForeach` (the condition count is the
recorded count of the foreach's synthetic slot-1 counter). -/
def createProfileWeightsForeach (haveCounts : Bool) (LoopCount CondCount : Nat) :
    Option (Nat × Nat) :=
  if !haveCounts then none
  else if CondCount = 0 then none
  else createProfileWeights (loopBranchWeights CondCount LoopCount).1
        (loopBranchWeights CondCount LoopCount).2

/-- Model of `CodeGenPGO::createProfileWeightsForeachRange`. -/
def createProfileWeightsForeachRange (haveCounts : Bool) (LoopCount CondCount : Nat) :
    Option (Nat × Nat) :=
  if !haveCounts then none
  else if CondCount = 0 then none
  else createProfileWeights (loopBranchWeights CondCount LoopCount).1
        (loopBranchWeights CondCount LoopCount).2

/-! ## Profile loading -/

/-- Outcome of `IndexedInstrProfReader::getFunctionCounts` for one function:
success with the loaded counters, or one of the `instrprof_error` classes
distinguished by `CodeGenPGO::loadRegionCounts` (`unknown_function`,
`hash_mismatch`, `malformed`, and the catch-all I/O / other error). -/
inductive ProfileLookup where
  | success (counts : List Nat)
  | unknownFunction
  | hashMismatch
  | malformed
  | ioError
deriving DecidableEq, Repr

/-- Model of `CodeGenPGO::loadRegionCounts`: returns the new `RegionCounts` sequence
and the list of user-visible warnings emitted, each warning recorded as the
name of the function it names.  `prev` is whatever `RegionCounts` held
before (cleared on entry, and cleared again on every failure so partial
data from the reader is discarded).  The function is total: no outcome
aborts compilation. -/
def loadRegionCounts (_prev : List Nat) (res : ProfileLookup) (FuncName : String) :
    List Nat × List String :=
  match res with
  | .success counts => (counts, [])
  | .unknownFunction => ([], [])
  | .hashMismatch => ([], [FuncName])
  | .malformed => ([], [FuncName])
  | .ioError => ([], [FuncName])

/-! ## Auxiliary predicates and measures used by the verification -/

/-- Density invariant of `MapRegionCounters`: the assigned counter values, in
insertion order, are exactly `0, 1, ..., NextCounter - 1`. -/
def MapInv (st : MapState) : Prop :=
  st.CounterMap.map Prod.snd = List.range st.NextCounter

/-- The extension relation along the mapping walk of a subtree whose node
identities are contained in `ids`: the map grows only by entries keyed in
`ids`, and tokens are only appended. -/
def MExt (ids : List Nat) (st st' : MapState) : Prop :=
  (∃ ext, st'.CounterMap = st.CounterMap ++ ext ∧
    ∀ x ∈ ext.map Prod.fst, x ∈ ids) ∧
  (∃ ts, st'.tokens = st.tokens ++ ts)

/-- Freshness of the identity list `ids` with respect to the map of `st`. -/
def FreshIds (ids : List Nat) (st : MapState) : Prop :=
  ∀ i ∈ ids, i ∉ st.CounterMap.map Prod.fst

/-- The identities of the catch clauses themselves, in declaration order. -/
def catchHeadIds : Catches → List Nat
  | .nil => []
  | .cons cid _ rest => cid :: catchHeadIds rest

/-- The identities inside the catch handlers. -/
def handlerIds : Catches → List Nat
  | .nil => []
  | .cons _ h rest => stmtIds h ++ handlerIds rest

/-- The number of catch clauses. -/
def catchLen : Catches → Nat
  | .nil => 0
  | .cons _ _ rest => catchLen rest + 1

/-- The map entries produced by the catch-clause loop of
`visit(TryCatchStatement)` when the first counter assigned is `n`:
consecutive counters in declaration order. -/
def catchEntries : Catches → Nat → List (Nat × Nat)
  | .nil, _ => []
  | .cons cid _ rest, n => (cid, n) :: catchEntries rest (n + 1)

/-! ## Foundational lemmas -/

theorem W_pos : 0 < W := by norm_num [W]

theorem uadd_lt (a b : Nat) : uadd a b < W := Nat.mod_lt _ W_pos

theorem usub_lt (a b : Nat) : usub a b < W := Nat.mod_lt _ W_pos

theorem uadd_of_lt {a b : Nat} (h : a + b < W) : uadd a b = a + b :=
  Nat.mod_eq_of_lt h

theorem usub_of_le {a b : Nat} (hb : b ≤ a) (ha : a < W) : usub a b = a - b := by
  have h1 : a % W = a := Nat.mod_eq_of_lt ha
  have h2 : b % W = b := Nat.mod_eq_of_lt (lt_of_le_of_lt hb ha)
  unfold usub
  rw [h1, h2]
  have h3 : a + W - b = (a - b) + W := by omega
  rw [h3, Nat.add_mod_right]
  exact Nat.mod_eq_of_lt (by omega)

theorem lookup_append_some {m1 m2 : List (Nat × Nat)} {k v : Nat}
    (h : m1.lookup k = some v) : (m1 ++ m2).lookup k = some v := by
  induction m1 with
  | nil => simp [List.lookup] at h
  | cons p rest ih =>
      simp only [List.cons_append, List.lookup] at h ⊢
      by_cases hk : k = p.1
      · simpa [hk] using h
      · have hb : (k == p.1) = false := beq_false_of_ne hk
        rw [hb] at h ⊢
        exact ih h

theorem lookup_append_none {m1 m2 : List (Nat × Nat)} {k : Nat}
    (h : m1.lookup k = none) : (m1 ++ m2).lookup k = m2.lookup k := by
  induction m1 with
  | nil => simp
  | cons p rest ih =>
      simp only [List.cons_append, List.lookup] at h ⊢
      by_cases hk : k = p.1
      · simp [hk] at h
      · have hb : (k == p.1) = false := beq_false_of_ne hk
        rw [hb] at h ⊢
        exact ih h

theorem mapInsert_of_none {m : List (Nat × Nat)} {k : Nat} (v : Nat)
    (h : m.lookup k = none) : mapInsert m k v = m ++ [(k, v)] := by
  simp [mapInsert, h]

theorem lookup_update_ne (m : List (Nat × Nat)) (k v k' : Nat) (h : k' ≠ k) :
    (m.map (fun p => if p.1 = k then (k, v) else p)).lookup k' = m.lookup k' := by
  induction m with
  | nil => simp
  | cons p rest ih =>
      obtain ⟨a, b⟩ := p
      by_cases hp : a = k
      · subst hp
        simp only [List.map_cons, if_pos, List.lookup_cons, beq_false_of_ne h, ih]
      · simp only [List.map_cons, List.lookup_cons, if_neg hp, ih]

theorem lookup_update_self (m : List (Nat × Nat)) (k v : Nat)
    (hs : (m.lookup k).isSome) :
    (m.map (fun p => if p.1 = k then (k, v) else p)).lookup k = some v := by
  induction m with
  | nil => simp at hs
  | cons p rest ih =>
      obtain ⟨a, b⟩ := p
      by_cases hp : a = k
      · subst hp
        simp [List.lookup_cons]
      · have hb : (k == a) = false := beq_false_of_ne (fun hh => hp hh.symm)
        simp only [List.lookup_cons, hb] at hs
        simp only [List.map_cons, if_neg hp, List.lookup_cons, hb, cond_false]
        exact ih hs

theorem mapInsert_lookup_ne {m : List (Nat × Nat)} {k k' : Nat} (v : Nat)
    (h : k' ≠ k) : (mapInsert m k v).lookup k' = m.lookup k' := by
  unfold mapInsert
  by_cases hs : (m.lookup k).isSome
  · rw [if_pos hs]
    exact lookup_update_ne m k v k' h
  · rw [if_neg hs]
    cases hm : m.lookup k' with
    | some w => exact lookup_append_some hm
    | none =>
        rw [lookup_append_none hm]
        simp [List.lookup_cons, beq_false_of_ne h, hm]

theorem mapInsert_lookup_self {m : List (Nat × Nat)} (k v : Nat) :
    (mapInsert m k v).lookup k = some v := by
  unfold mapInsert
  by_cases hs : (m.lookup k).isSome
  · rw [if_pos hs]
    exact lookup_update_self m k v hs
  · rw [if_neg hs]
    have hn : m.lookup k = none := by
      cases hm : m.lookup k with
      | some w => simp [hm] at hs
      | none => rfl
    rw [lookup_append_none hn]
    simp [List.lookup_cons]

/-! ## PGOHash lemmas -/

theorem combine_Count (t : Nat) (st : PGOHashState) :
    (PGOHash.combine t st).Count = st.Count + 1 := by
  unfold PGOHash.combine
  by_cases h : st.Count ≠ 0 ∧ st.Count % NumTypesPerWord = 0 <;> simp [h]

theorem combineList_Count (ts : List Nat) (st : PGOHashState) :
    (PGOHash.combineList ts st).Count = st.Count + ts.length := by
  induction ts generalizing st with
  | nil => simp [PGOHash.combineList]
  | cons t ts ih =>
      show (PGOHash.combineList ts (PGOHash.combine t st)).Count = _
      rw [ih, combine_Count]
      simp
      omega

theorem combineList_no_fold (ts : List Nat) (st : PGOHashState)
    (h : ∀ j, j < ts.length → st.Count + j ≠ 0 → (st.Count + j) % NumTypesPerWord ≠ 0) :
    PGOHash.combineList ts st =
      ⟨ts.foldl (fun w t => (w <<< NumBitsPerType ||| t) % W) st.Working,
       st.Count + ts.length, st.md5⟩ := by
  induction ts generalizing st with
  | nil => simp [PGOHash.combineList]
  | cons t ts ih =>
      have h0 : ¬(st.Count ≠ 0 ∧ st.Count % NumTypesPerWord = 0) := by
        intro ⟨hne, hmod⟩
        exact h 0 (by simp) (by simpa using hne) (by simpa using hmod)
      show PGOHash.combineList ts (PGOHash.combine t st) = _
      have hc : PGOHash.combine t st =
          ⟨(st.Working <<< NumBitsPerType ||| t) % W, st.Count + 1, st.md5⟩ := by
        unfold PGOHash.combine
        rw [if_neg h0]
      rw [hc, ih]
      · simp [List.foldl_cons]
        omega
      · intro j hj hne
        have := h (j + 1) (by simpa using Nat.add_lt_add_right hj 1)
        simp only at this ⊢
        have h2 : st.Count + (j + 1) = st.Count + 1 + j := by omega
        rw [h2] at this
        exact this (by omega)

theorem combine_eq (t : Nat) (st : PGOHashState) :
    PGOHash.combine t st =
      if st.Count ≠ 0 ∧ st.Count % NumTypesPerWord = 0 then
        ⟨(0 <<< NumBitsPerType ||| t) % W, st.Count + 1, st.md5 ++ [st.Working]⟩
      else
        ⟨(st.Working <<< NumBitsPerType ||| t) % W, st.Count + 1, st.md5⟩ := by
  unfold PGOHash.combine
  by_cases h : st.Count ≠ 0 ∧ st.Count % NumTypesPerWord = 0
  · rw [if_pos h, if_pos h]
  · rw [if_neg h, if_neg h]

theorem packed_mod_ne (t : Nat) (h0 : 0 < t) (h64 : t < 64) (w : Nat) :
    (w <<< NumBitsPerType ||| t) % W ≠ 0 := by
  intro hw
  have h1 : w <<< NumBitsPerType ||| t = 64 * w + t := by
    show w <<< 6 ||| t = 64 * w + t
    rw [Nat.shiftLeft_eq, Nat.mul_comm]
    exact (Nat.mul_add_lt_is_or (show t < 2 ^ 6 from h64) w).symm
  rw [h1] at hw
  have hdvd : (64 : Nat) ∣ W := ⟨2 ^ 58, by norm_num [W]⟩
  have h3 : (64 * w + t) % W % 64 = (64 * w + t) % 64 :=
    Nat.mod_mod_of_dvd _ hdvd
  rw [hw] at h3
  have h4 : (64 * w + t) % 64 = t % 64 := Nat.mul_add_mod 64 w t
  rw [h4, Nat.mod_eq_of_lt h64] at h3
  omega

theorem combine_Working_ne (t : Nat) (st : PGOHashState)
    (h0 : 0 < t) (h64 : t < 64) : (PGOHash.combine t st).Working ≠ 0 := by
  rw [combine_eq]
  by_cases h : st.Count ≠ 0 ∧ st.Count % NumTypesPerWord = 0
  · rw [if_pos h]
    exact packed_mod_ne t h0 h64 0
  · rw [if_neg h]
    exact packed_mod_ne t h0 h64 st.Working

theorem combineList_Working_ne (ts : List Nat) :
    ∀ st : PGOHashState, (∀ t ∈ ts, 0 < t ∧ t < 64) →
      (st.Working ≠ 0 ∨ ts ≠ []) →
      (PGOHash.combineList ts st).Working ≠ 0 := by
  induction ts with
  | nil =>
      intro st hv h
      rcases h with h | h
      · exact h
      · exact absurd rfl h
  | cons t ts ih =>
      intro st hv h
      have h1 : PGOHash.combineList (t :: ts) st =
          PGOHash.combineList ts (PGOHash.combine t st) := rfl
      rw [h1]
      exact ih (PGOHash.combine t st) (fun x hx => hv x (List.mem_cons_of_mem t hx))
        (Or.inl (combine_Working_ne t st (hv t (List.mem_cons_self t ts)).1
          (hv t (List.mem_cons_self t ts)).2))

/-- C5: A token sequence of at most `NumTypesPerWord = 10` tokens is hashed to
the packed accumulator word itself — the 6-bit tokens packed in combine order —
independently of the digest (no MD5 invocation); a longer sequence folds the
remaining partial word into the digest stream and returns the digest of the
folded words. -/
theorem pgohash_finalize_spec (ts : List Nat) (digest : List Nat → Nat)
    (hv : ∀ t ∈ ts, 0 < t ∧ t < 64) :
    PGOHash.finalize digest (PGOHash.combineList ts PGOHash.init) =
      (if ts.length ≤ NumTypesPerWord then
        ts.foldl (fun w t => (w <<< NumBitsPerType ||| t) % W) 0
      else
        digest ((PGOHash.combineList ts PGOHash.init).md5 ++
          [(PGOHash.combineList ts PGOHash.init).Working])) := by
  have hcount : (PGOHash.combineList ts PGOHash.init).Count = ts.length := by
    rw [combineList_Count]
    show 0 + ts.length = ts.length
    omega
  by_cases hlen : ts.length ≤ NumTypesPerWord
  · rw [if_pos hlen]
    have hfold : PGOHash.combineList ts PGOHash.init =
        ⟨ts.foldl (fun w t => (w <<< NumBitsPerType ||| t) % W) 0, ts.length, []⟩ := by
      have hpre : ∀ j, j < ts.length → PGOHash.init.Count + j ≠ 0 →
          (PGOHash.init.Count + j) % NumTypesPerWord ≠ 0 := by
        intro j hj hne
        show ¬(PGOHash.init.Count + j) % NumTypesPerWord = 0
        have hz : PGOHash.init.Count = 0 := rfl
        rw [hz] at hne ⊢
        rw [Nat.zero_add] at hne ⊢
        have hj10 : j < NumTypesPerWord := lt_of_lt_of_le hj hlen
        rw [Nat.mod_eq_of_lt hj10]
        exact hne
      have hw0 : PGOHash.init.Working = 0 := rfl
      have hc0 : PGOHash.init.Count = 0 := rfl
      have hm0 : PGOHash.init.md5 = [] := rfl
      rw [combineList_no_fold ts PGOHash.init hpre, hw0, hc0, hm0, Nat.zero_add]
    rw [hfold]
    unfold PGOHash.finalize
    rw [if_pos]
    exact hlen
  · rw [if_neg hlen]
    have hne : ts ≠ [] := by
      intro h
      subst h
      exact hlen (by simp [NumTypesPerWord, NumBitsPerType])
    have hW : (PGOHash.combineList ts PGOHash.init).Working ≠ 0 :=
      combineList_Working_ne ts PGOHash.init hv (Or.inr hne)
    unfold PGOHash.finalize
    rw [if_neg (by omega : ¬(PGOHash.combineList ts PGOHash.init).Count ≤ NumTypesPerWord)]
    rw [if_pos hW]

/-- Witness for C5 at the concrete token sequence `[11, 16, 17]`
(IfStmt, AndAndExpr, OrOrExpr) and the digest returning the word count. -/
theorem pgohash_finalize_spec_witness :
    (∀ t ∈ ([11, 16, 17] : List Nat), 0 < t ∧ t < 64) ∧
    PGOHash.finalize (fun l => l.length) (PGOHash.combineList [11, 16, 17] PGOHash.init) =
      (if ([11, 16, 17] : List Nat).length ≤ NumTypesPerWord then
        ([11, 16, 17] : List Nat).foldl (fun w t => (w <<< NumBitsPerType ||| t) % W) 0
      else
        (fun l : List Nat => l.length)
          ((PGOHash.combineList [11, 16, 17] PGOHash.init).md5 ++
            [(PGOHash.combineList [11, 16, 17] PGOHash.init).Working])) :=
  ⟨by decide, pgohash_finalize_spec [11, 16, 17] (fun l => l.length) (by decide)⟩

/-! ## Weight synthesis lemmas -/

theorem scaleBranchWeight_le (wt m : Nat) (hw : wt ≤ m) :
    scaleBranchWeight wt (calculateWeightScale m) ≤ UINT32_MAX := by
  unfold scaleBranchWeight calculateWeightScale
  by_cases h : m < UINT32_MAX
  · rw [if_pos h]
    omega
  · rw [if_neg h]
    have hU : 0 < UINT32_MAX := by norm_num [UINT32_MAX]
    have h3 : m < (m / UINT32_MAX + 1) * UINT32_MAX := by
      have hm := (Nat.div_add_mod m UINT32_MAX).symm
      have hmod := Nat.mod_lt m hU
      calc m = UINT32_MAX * (m / UINT32_MAX) + m % UINT32_MAX := hm
        _ < UINT32_MAX * (m / UINT32_MAX) + UINT32_MAX := by omega
        _ = (m / UINT32_MAX + 1) * UINT32_MAX := by ring
    have h2 : wt / (m / UINT32_MAX + 1) < UINT32_MAX :=
      Nat.div_lt_of_lt_mul (lt_of_le_of_lt hw h3)
    omega

/-- C6: `createProfileWeights(TrueCount, FalseCount)` returns "no weights"
exactly when both counts are zero; otherwise it returns the pair
`count / scale + 1` with `scale = 1` when `max < 2^32 - 1` and
`max / (2^32 - 1) + 1` otherwise, and each emitted weight fits in 32 bits;
in particular `[0, 0]` yields no weights and `[3, 0]` yields `[4, 1]`. -/
theorem createProfileWeights_spec (t f : Nat) :
    (createProfileWeights t f = none ↔ t = 0 ∧ f = 0) ∧
    (¬(t = 0 ∧ f = 0) →
      createProfileWeights t f =
        some (t / calculateWeightScale (max t f) + 1,
              f / calculateWeightScale (max t f) + 1) ∧
      calculateWeightScale (max t f) =
        (if max t f < UINT32_MAX then 1 else max t f / UINT32_MAX + 1) ∧
      t / calculateWeightScale (max t f) + 1 ≤ UINT32_MAX ∧
      f / calculateWeightScale (max t f) + 1 ≤ UINT32_MAX) ∧
    createProfileWeights 0 0 = none ∧
    createProfileWeights 3 0 = some (4, 1) := by
  refine ⟨?_, ?_, by decide, by decide⟩
  · constructor
    · intro h
      by_contra hne
      simp only [createProfileWeights, if_neg hne] at h
      exact Option.noConfusion h
    · intro h
      simp only [createProfileWeights, if_pos h]
  · intro hne
    refine ⟨?_, rfl, ?_, ?_⟩
    · simp only [createProfileWeights, if_neg hne]
      rfl
    · exact scaleBranchWeight_le t (max t f) (le_max_left t f)
    · exact scaleBranchWeight_le f (max t f) (le_max_right t f)

/-- Witness for C6 at `TrueCount = 3`, `FalseCount = 0`. -/
theorem createProfileWeights_spec_witness :
    ¬((3 : Nat) = 0 ∧ (0 : Nat) = 0) ∧
    (createProfileWeights 3 0 =
       some (3 / calculateWeightScale (max 3 0) + 1,
             0 / calculateWeightScale (max 3 0) + 1) ∧
     calculateWeightScale (max 3 0) =
       (if max 3 0 < UINT32_MAX then 1 else max 3 0 / UINT32_MAX + 1) ∧
     3 / calculateWeightScale (max 3 0) + 1 ≤ UINT32_MAX ∧
     0 / calculateWeightScale (max 3 0) + 1 ≤ UINT32_MAX) :=
  ⟨by decide, ((createProfileWeights_spec 3 0).2.1 (by decide))⟩

/-- C7: the loop-weight adapter hands `createProfileWeights` the pair
`(LoopCount, max(CondCount, LoopCount) - LoopCount)`; the guarded subtraction
never underflows (`LoopCount + (max - LoopCount) = max`), and
`LoopCount = 10, CondCount = 7` yields the pair `(10, 0)`. -/
theorem loop_adapter_pair (L C : Nat) :
    loopBranchWeights C L = (L, max C L - L) ∧
    L + (max C L - L) = max C L ∧
    loopBranchWeights 7 10 = (10, 0) ∧
    (C ≠ 0 →
      createProfileWeightsWhileLoop true C L =
        createProfileWeights L (max C L - L)) := by
  refine ⟨rfl, ?_, by decide, ?_⟩
  · have := le_max_right C L
    omega
  · intro hC
    simp only [createProfileWeightsWhileLoop, Bool.not_true, if_neg hC,
      Bool.false_eq_true, if_false, loopBranchWeights]

/-- Witness for C7 at `LoopCount = 10`, `CondCount = 7`. -/
theorem loop_adapter_pair_witness :
    loopBranchWeights 7 10 = (10, max 7 10 - 10) ∧
    10 + (max 7 10 - 10) = max 7 10 ∧
    loopBranchWeights 7 10 = (10, 0) ∧
    ((7 : Nat) ≠ 0 →
      createProfileWeightsWhileLoop true 7 10 =
        createProfileWeights 10 (max 7 10 - 10)) :=
  loop_adapter_pair 10 7

/-- C8: every profile-lookup outcome other than success leaves `RegionCounts`
empty (partial data discarded) and returns normally; the unknown-function
outcome emits no warning, while hash-mismatch, malformed and I/O-error
outcomes each emit one warning naming the function. -/
theorem loadRegionCounts_spec (prev : List Nat) (name : String) :
    loadRegionCounts prev .unknownFunction name = ([], []) ∧
    loadRegionCounts prev .hashMismatch name = ([], [name]) ∧
    loadRegionCounts prev .malformed name = ([], [name]) ∧
    loadRegionCounts prev .ioError name = ([], [name]) :=
  ⟨rfl, rfl, rfl, rfl⟩

/-- C9: each loop-weight adapter returns "no weights" when the recorded
condition-entry count is zero (whatever the loop's own trip count), and when
no region counts are loaded. -/
theorem loop_adapter_no_weights (L C : Nat) :
    createProfileWeightsWhileLoop true 0 L = none ∧
    createProfileWeightsForLoop true L 0 = none ∧
    createProfileWeightsForeach true L 0 = none ∧
    createProfileWeightsForeachRange true L 0 = none ∧
    createProfileWeightsWhileLoop false C L = none ∧
    createProfileWeightsForLoop false L C = none ∧
    createProfileWeightsForeach false L C = none ∧
    createProfileWeightsForeachRange false L C = none := by
  refine ⟨?_, ?_, ?_, ?_, rfl, rfl, rfl, rfl⟩ <;>
    simp [createProfileWeightsWhileLoop, createProfileWeightsForLoop,
      createProfileWeightsForeach, createProfileWeightsForeachRange]

/-! ## Mapping-pass invariants -/

theorem lookup_eq_none_of_not_mem_keys {m : List (Nat × Nat)} {k : Nat}
    (h : k ∉ m.map Prod.fst) : m.lookup k = none := by
  induction m with
  | nil => rfl
  | cons p rest ih =>
      simp only [List.map_cons, List.mem_cons, not_or] at h
      rw [List.lookup_cons, beq_false_of_ne h.1]
      exact ih h.2

theorem mem_keys_of_lookup_isSome {m : List (Nat × Nat)} {k : Nat}
    (h : (m.lookup k).isSome) : k ∈ m.map Prod.fst := by
  by_contra hk
  rw [lookup_eq_none_of_not_mem_keys hk] at h
  exact Bool.noConfusion h

theorem MapInv.length {st : MapState} (hI : MapInv st) :
    st.CounterMap.length = st.NextCounter := by
  have := congrArg List.length hI
  simpa using this

theorem assign_inv {st : MapState} (hI : MapInv st) {k : Nat}
    (hk : st.CounterMap.lookup k = none) (t : HashType) :
    MapInv (st.assign k t) ∧
    (st.assign k t).CounterMap = st.CounterMap ++ [(k, st.NextCounter)] ∧
    (st.assign k t).tokens = st.tokens ++ [t] ∧
    (st.assign k t).NextCounter = st.NextCounter + 1 := by
  have h1 : mapInsert st.CounterMap k st.NextCounter =
      st.CounterMap ++ [(k, st.NextCounter)] := mapInsert_of_none _ hk
  refine ⟨?_, h1, rfl, rfl⟩
  show (mapInsert st.CounterMap k st.NextCounter).map Prod.snd =
    List.range (st.NextCounter + 1)
  rw [h1, List.map_append, hI, List.range_succ]
  rfl

theorem assignNoHash_inv {st : MapState} (hI : MapInv st) {k : Nat}
    (hk : st.CounterMap.lookup k = none) :
    MapInv (st.assignNoHash k) ∧
    (st.assignNoHash k).CounterMap = st.CounterMap ++ [(k, st.NextCounter)] ∧
    (st.assignNoHash k).tokens = st.tokens ∧
    (st.assignNoHash k).NextCounter = st.NextCounter + 1 := by
  have h1 : mapInsert st.CounterMap k st.NextCounter =
      st.CounterMap ++ [(k, st.NextCounter)] := mapInsert_of_none _ hk
  refine ⟨?_, h1, rfl, rfl⟩
  show (mapInsert st.CounterMap k st.NextCounter).map Prod.snd =
    List.range (st.NextCounter + 1)
  rw [h1, List.map_append, hI, List.range_succ]
  rfl

theorem visitOnce_inv (st : MapState) (hI : MapInv st) (k : Nat) (t : HashType) :
    MapInv (st.visitOnce k t) ∧
    (∃ ext, (st.visitOnce k t).CounterMap = st.CounterMap ++ ext ∧
      ∀ x ∈ ext.map Prod.fst, x = k) ∧
    (∃ ts, (st.visitOnce k t).tokens = st.tokens ++ ts) := by
  unfold MapState.visitOnce
  by_cases h : (st.CounterMap.lookup k).isSome
  · rw [if_pos h]
    exact ⟨hI, ⟨[], by simp, by simp⟩, ⟨[], by simp⟩⟩
  · rw [if_neg h]
    have hk : st.CounterMap.lookup k = none := by
      cases hm : st.CounterMap.lookup k with
      | some w => simp [hm] at h
      | none => rfl
    obtain ⟨hI', hmap, htok, _⟩ := assign_inv hI hk t
    exact ⟨hI', ⟨[(k, st.NextCounter)], hmap, by simp⟩, ⟨[t], htok⟩⟩

theorem MExt.refl (ids : List Nat) (st : MapState) : MExt ids st st :=
  ⟨⟨[], by simp, by simp⟩, ⟨[], by simp⟩⟩

theorem MExt.trans {ids1 ids2 ids : List Nat} {st st1 st2 : MapState}
    (h1 : MExt ids1 st st1) (h2 : MExt ids2 st1 st2)
    (sub1 : ∀ x ∈ ids1, x ∈ ids) (sub2 : ∀ x ∈ ids2, x ∈ ids) :
    MExt ids st st2 := by
  obtain ⟨⟨e1, hm1, hk1⟩, ⟨t1, ht1⟩⟩ := h1
  obtain ⟨⟨e2, hm2, hk2⟩, ⟨t2, ht2⟩⟩ := h2
  refine ⟨⟨e1 ++ e2, ?_, ?_⟩, ⟨t1 ++ t2, ?_⟩⟩
  · rw [hm2, hm1, List.append_assoc]
  · intro x hx
    rw [List.map_append, List.mem_append] at hx
    rcases hx with hx | hx
    · exact sub1 x (hk1 x hx)
    · exact sub2 x (hk2 x hx)
  · rw [ht2, ht1, List.append_assoc]

theorem MExt.mono {ids1 ids : List Nat} {st st1 : MapState}
    (h1 : MExt ids1 st st1) (sub1 : ∀ x ∈ ids1, x ∈ ids) : MExt ids st st1 := by
  have := MExt.trans h1 (MExt.refl ids1 st1) sub1 sub1
  exact this

theorem FreshIds.sub {ids1 ids : List Nat} {st : MapState}
    (h : FreshIds ids st) (sub : ∀ x ∈ ids1, x ∈ ids) : FreshIds ids1 st :=
  fun i hi => h i (sub i hi)

theorem FreshIds.after {ids1 ids2 ids : List Nat} {st st1 : MapState}
    (h : FreshIds ids st) (hext : MExt ids1 st st1)
    (sub2 : ∀ x ∈ ids2, x ∈ ids)
    (hdisj : ∀ x ∈ ids2, x ∉ ids1) : FreshIds ids2 st1 := by
  intro i hi hmem
  obtain ⟨⟨ext, hm, hk⟩, _⟩ := hext
  rw [hm, List.map_append, List.mem_append] at hmem
  rcases hmem with hmem | hmem
  · exact h i (sub2 i hi) hmem
  · exact hdisj i hi (hk i hmem)

theorem nodup_append_parts {A B : List Nat} (h : (A ++ B).Nodup) :
    A.Nodup ∧ B.Nodup ∧ ∀ x ∈ B, x ∉ A := by
  rw [List.nodup_append] at h
  exact ⟨h.1, h.2.1, fun x hxB hxA => h.2.2 hxA hxB⟩

theorem mapExpr_inv (e : Expr) : ∀ st : MapState, MapInv st →
    MapInv (mapExpr e st) ∧ MExt (exprIds e) st (mapExpr e st) := by
  induction e with
  | atomE id =>
      intro st hI
      exact ⟨hI, MExt.refl _ st⟩
  | condE id ec e1 e2 ihc ih1 ih2 =>
      intro st hI
      obtain ⟨hI0, ⟨ext0, hm0, hk0⟩, ⟨ts0, ht0⟩⟩ :=
        visitOnce_inv st hI id .ConditionalExpr
      obtain ⟨hIc, hXc⟩ := ihc _ hI0
      obtain ⟨hI1, hX1⟩ := ih1 _ hIc
      obtain ⟨hI2, hX2⟩ := ih2 _ hI1
      refine ⟨hI2, ?_⟩
      have hsub0 : ∀ x ∈ [id], x ∈ exprIds (Expr.condE id ec e1 e2) := by
        intro x hx
        simp only [List.mem_singleton] at hx
        simp [exprIds, hx]
      have hX0 : MExt (exprIds (Expr.condE id ec e1 e2)) st (st.visitOnce id .ConditionalExpr) := by
        refine MExt.mono ⟨⟨ext0, hm0, ?_⟩, ⟨ts0, ht0⟩⟩ hsub0
        intro x hx
        simp [hk0 x hx]
      have hsubc : ∀ x ∈ exprIds ec, x ∈ exprIds (Expr.condE id ec e1 e2) := by
        intro x hx
        simp [exprIds, hx]
      have hsub1 : ∀ x ∈ exprIds e1, x ∈ exprIds (Expr.condE id ec e1 e2) := by
        intro x hx
        simp [exprIds, hx]
      have hsub2 : ∀ x ∈ exprIds e2, x ∈ exprIds (Expr.condE id ec e1 e2) := by
        intro x hx
        simp [exprIds, hx]
      have hall : ∀ x ∈ exprIds (Expr.condE id ec e1 e2),
          x ∈ exprIds (Expr.condE id ec e1 e2) := fun x hx => hx
      exact MExt.trans (MExt.trans (MExt.trans hX0 hXc hall hsubc) hX1 hall hsub1)
        hX2 hall hsub2
  | andandE id e1 e2 ih1 ih2 =>
      intro st hI
      obtain ⟨hI0, ⟨ext0, hm0, hk0⟩, ⟨ts0, ht0⟩⟩ := visitOnce_inv st hI id .AndAndExpr
      obtain ⟨hI1, hX1⟩ := ih1 _ hI0
      obtain ⟨hI2, hX2⟩ := ih2 _ hI1
      refine ⟨hI2, ?_⟩
      have hX0 : MExt (exprIds (Expr.andandE id e1 e2)) st (st.visitOnce id .AndAndExpr) := by
        refine ⟨⟨ext0, hm0, ?_⟩, ⟨ts0, ht0⟩⟩
        intro x hx
        simp [exprIds, hk0 x hx]
      have hall : ∀ x ∈ exprIds (Expr.andandE id e1 e2),
          x ∈ exprIds (Expr.andandE id e1 e2) := fun x hx => hx
      have hsub1 : ∀ x ∈ exprIds e1, x ∈ exprIds (Expr.andandE id e1 e2) := by
        intro x hx
        simp [exprIds, hx]
      have hsub2 : ∀ x ∈ exprIds e2, x ∈ exprIds (Expr.andandE id e1 e2) := by
        intro x hx
        simp [exprIds, hx]
      exact MExt.trans (MExt.trans hX0 hX1 hall hsub1) hX2 hall hsub2
  | ororE id e1 e2 ih1 ih2 =>
      intro st hI
      obtain ⟨hI0, ⟨ext0, hm0, hk0⟩, ⟨ts0, ht0⟩⟩ := visitOnce_inv st hI id .OrOrExpr
      obtain ⟨hI1, hX1⟩ := ih1 _ hI0
      obtain ⟨hI2, hX2⟩ := ih2 _ hI1
      refine ⟨hI2, ?_⟩
      have hX0 : MExt (exprIds (Expr.ororE id e1 e2)) st (st.visitOnce id .OrOrExpr) := by
        refine ⟨⟨ext0, hm0, ?_⟩, ⟨ts0, ht0⟩⟩
        intro x hx
        simp [exprIds, hk0 x hx]
      have hall : ∀ x ∈ exprIds (Expr.ororE id e1 e2),
          x ∈ exprIds (Expr.ororE id e1 e2) := fun x hx => hx
      have hsub1 : ∀ x ∈ exprIds e1, x ∈ exprIds (Expr.ororE id e1 e2) := by
        intro x hx
        simp [exprIds, hx]
      have hsub2 : ∀ x ∈ exprIds e2, x ∈ exprIds (Expr.ororE id e1 e2) := by
        intro x hx
        simp [exprIds, hx]
      exact MExt.trans (MExt.trans hX0 hX1 hall hsub1) hX2 hall hsub2

theorem assignCatches_spec : ∀ (cs : Catches) (st : MapState), MapInv st →
    (catchHeadIds cs).Nodup → FreshIds (catchHeadIds cs) st →
    MapInv (assignCatches cs st) ∧
    (assignCatches cs st).CounterMap =
      st.CounterMap ++ catchEntries cs st.NextCounter ∧
    (assignCatches cs st).NextCounter = st.NextCounter + catchLen cs ∧
    (assignCatches cs st).tokens =
      st.tokens ++ List.replicate (catchLen cs) HashType.TryCatchCatch
  | .nil, st => by
      intro hI _ _
      exact ⟨hI, by simp [assignCatches, catchEntries],
        by simp [assignCatches, catchLen], by simp [assignCatches, catchLen]⟩
  | .cons cid h rest, st => by
      intro hI hnd hfresh
      have hcid : st.CounterMap.lookup cid = none := by
        apply lookup_eq_none_of_not_mem_keys
        exact hfresh cid (by simp [catchHeadIds])
      obtain ⟨hI1, hmap1, htok1, hnext1⟩ := assign_inv hI hcid HashType.TryCatchCatch
      have hnd1 : (catchHeadIds rest).Nodup := by
        simp only [catchHeadIds, List.nodup_cons] at hnd
        exact hnd.2
      have hcidrest : cid ∉ catchHeadIds rest := by
        simp only [catchHeadIds, List.nodup_cons] at hnd
        exact hnd.1
      have hfresh1 : FreshIds (catchHeadIds rest) (st.assign cid HashType.TryCatchCatch) := by
        intro i hi hmem
        rw [hmap1, List.map_append, List.mem_append] at hmem
        rcases hmem with hmem | hmem
        · exact hfresh i (by simp [catchHeadIds, hi]) hmem
        · simp only [List.map_cons, List.map_nil, List.mem_singleton] at hmem
          exact hcidrest (hmem ▸ hi)
      obtain ⟨hI2, hmap2, hnext2, htok2⟩ :=
        assignCatches_spec rest (st.assign cid HashType.TryCatchCatch) hI1 hnd1 hfresh1
      refine ⟨hI2, ?_, ?_, ?_⟩
      · show (assignCatches rest (st.assign cid HashType.TryCatchCatch)).CounterMap = _
        rw [hmap2, hmap1, hnext1, List.append_assoc]
        rfl
      · show (assignCatches rest (st.assign cid HashType.TryCatchCatch)).NextCounter = _
        rw [hnext2, hnext1]
        show st.NextCounter + 1 + catchLen rest =
          st.NextCounter + catchLen (Catches.cons cid h rest)
        simp only [catchLen]
        omega
      · show (assignCatches rest (st.assign cid HashType.TryCatchCatch)).tokens = _
        rw [htok2, htok1, List.append_assoc]
        show st.tokens ++
          ([HashType.TryCatchCatch] ++ List.replicate (catchLen rest) HashType.TryCatchCatch) = _
        rw [List.singleton_append, ← List.replicate_succ]
        rfl

theorem stmtIds_eq (s : Stmt) : stmtIds s = stmtId s :: stmtSubIds s := by
  cases s <;> rfl

theorem sub_mem {s : Stmt} {x : Nat} (h : x ∈ stmtSubIds s) : x ∈ stmtIds s := by
  rw [stmtIds_eq]
  exact List.mem_cons_of_mem _ h

theorem nodup_parts {s : Stmt} (h : (stmtIds s).Nodup) :
    (stmtSubIds s).Nodup ∧ stmtId s ∉ stmtSubIds s := by
  rw [stmtIds_eq, List.nodup_cons] at h
  exact ⟨h.2, h.1⟩

theorem catchHeadIds_sub : ∀ (cs : Catches) (x : Nat),
    x ∈ catchHeadIds cs → x ∈ catchIds cs
  | .nil, x, h => by simp [catchHeadIds] at h
  | .cons cid hh rest, x, h => by
      simp only [catchHeadIds, List.mem_cons] at h
      rcases h with h | h
      · simp [catchIds, h]
      · have := catchHeadIds_sub rest x h
        simp [catchIds, List.mem_append, this]

theorem handlerIds_sub : ∀ (cs : Catches) (x : Nat),
    x ∈ handlerIds cs → x ∈ catchIds cs
  | .nil, x, h => by simp [handlerIds] at h
  | .cons cid hh rest, x, h => by
      simp only [handlerIds, List.mem_append] at h
      rcases h with h | h
      · simp [catchIds, List.mem_append, h]
      · have := handlerIds_sub rest x h
        simp [catchIds, List.mem_append, this]

theorem nodup_catchHeadIds : ∀ (cs : Catches),
    (catchIds cs).Nodup → (catchHeadIds cs).Nodup
  | .nil, _ => by simp [catchHeadIds]
  | .cons cid hh rest, h => by
      simp only [catchIds, List.nodup_cons] at h
      obtain ⟨hcid, hrest⟩ := h
      obtain ⟨_, hndrest, _⟩ := nodup_append_parts hrest
      simp only [catchHeadIds, List.nodup_cons]
      refine ⟨?_, nodup_catchHeadIds rest hndrest⟩
      intro hmem
      exact hcid (by simp [List.mem_append, catchHeadIds_sub rest cid hmem])

theorem catchEntries_keys : ∀ (cs : Catches) (n : Nat),
    (catchEntries cs n).map Prod.fst = catchHeadIds cs
  | .nil, _ => rfl
  | .cons cid hh rest, n => by
      simp only [catchEntries, List.map_cons, catchHeadIds]
      rw [catchEntries_keys rest (n + 1)]

theorem visitOnce_mext (st : MapState) (hI : MapInv st) (k : Nat) (t : HashType) :
    MapInv (st.visitOnce k t) ∧ MExt [k] st (st.visitOnce k t) := by
  obtain ⟨hI1, ⟨ext, hm, hk⟩, ⟨ts, ht⟩⟩ := visitOnce_inv st hI k t
  exact ⟨hI1, ⟨⟨ext, hm, fun x hx => by simp [hk x hx]⟩, ⟨ts, ht⟩⟩⟩

theorem handler_head_disjoint : ∀ (cs : Catches), (catchIds cs).Nodup →
    ∀ x ∈ handlerIds cs, x ∉ catchHeadIds cs
  | .nil => by
      intro _ x hx
      simp [handlerIds] at hx
  | .cons cid hh rest => by
      intro hnd x hx hheads
      simp only [catchIds, List.nodup_cons] at hnd
      obtain ⟨hcid, hndSub⟩ := hnd
      obtain ⟨hndH, hndRest, hdisjRest⟩ := nodup_append_parts hndSub
      simp only [handlerIds, List.mem_append] at hx
      simp only [catchHeadIds, List.mem_cons] at hheads
      rcases hheads with rfl | hheads
      · rcases hx with hx | hx
        · exact hcid (List.mem_append_left _ hx)
        · exact hcid (List.mem_append_right _ (handlerIds_sub rest x hx))
      · rcases hx with hx | hx
        · exact hdisjRest x (catchHeadIds_sub rest x hheads) hx
        · exact handler_head_disjoint rest hndRest x hx hheads

mutual

theorem mapStmt_inv : ∀ (s : Stmt) (st : MapState), MapInv st →
    (stmtIds s).Nodup → FreshIds (stmtSubIds s) st →
    MapInv (mapStmt s st) ∧ MExt (stmtIds s) st (mapStmt s st)
  | .expS id e, st => by
      intro hI _ _
      simp only [mapStmt]
      obtain ⟨hI1, hX1⟩ := mapExpr_inv e st hI
      refine ⟨hI1, hX1.mono ?_⟩
      intro x hx
      simp only [stmtIds, List.mem_cons]
      exact Or.inr hx
  | .returnS id e, st => by
      intro hI _ _
      simp only [mapStmt]
      obtain ⟨hI1, hX1⟩ := mapExpr_inv e st hI
      refine ⟨hI1, hX1.mono ?_⟩
      intro x hx
      simp only [stmtIds, List.mem_cons]
      exact Or.inr hx
  | .breakS id, st => by
      intro hI _ _
      simp only [mapStmt]
      exact ⟨hI, MExt.refl _ st⟩
  | .continueS id, st => by
      intro hI _ _
      simp only [mapStmt]
      exact ⟨hI, MExt.refl _ st⟩
  | .compoundS id s1 s2, st => by
      intro hI hnd hfresh
      simp only [mapStmt]
      have hfreshA : FreshIds (stmtIds s1 ++ stmtIds s2) st := hfresh
      obtain ⟨hid, hndSub⟩ := (by
        rw [stmtIds_eq, List.nodup_cons] at hnd
        exact hnd : id ∉ stmtSubIds (Stmt.compoundS id s1 s2) ∧
          (stmtSubIds (Stmt.compoundS id s1 s2)).Nodup)
      obtain ⟨hnd1, hnd2, hdisj2⟩ :=
        nodup_append_parts (A := stmtIds s1) (B := stmtIds s2) hndSub
      obtain ⟨hI1, hX1⟩ := mapStmt_inv s1 st hI hnd1
        (hfreshA.sub (fun x hx => List.mem_append_left _ (sub_mem hx)))
      have hfresh2 : FreshIds (stmtSubIds s2) (mapStmt s1 st) := by
        refine hfreshA.after hX1 ?_ ?_
        · exact fun x hx => List.mem_append_right _ (sub_mem hx)
        · exact fun x hx => hdisj2 x (sub_mem hx)
      obtain ⟨hI2, hX2⟩ := mapStmt_inv s2 (mapStmt s1 st) hI1 hnd2 hfresh2
      refine ⟨hI2, MExt.trans hX1 hX2 ?_ ?_⟩
      · intro x hx
        simp only [stmtIds, List.mem_cons, List.mem_append]
        exact Or.inr (Or.inl hx)
      · intro x hx
        simp only [stmtIds, List.mem_cons, List.mem_append]
        exact Or.inr (Or.inr hx)
  | .ifS id c tb eb, st => by
      intro hI hnd hfresh
      simp only [mapStmt]
      have hfreshA : FreshIds (exprIds c ++ stmtIds tb ++ stmtIds eb) st := hfresh
      obtain ⟨hid, hndSub⟩ := (by
        rw [stmtIds_eq, List.nodup_cons] at hnd
        exact hnd : id ∉ stmtSubIds (Stmt.ifS id c tb eb) ∧
          (stmtSubIds (Stmt.ifS id c tb eb)).Nodup)
      have hidA : id ∉ exprIds c ++ stmtIds tb ++ stmtIds eb := hid
      obtain ⟨hndCB, hndEb, hdisjEb⟩ :=
        nodup_append_parts (A := exprIds c ++ stmtIds tb) (B := stmtIds eb) hndSub
      obtain ⟨hndC, hndTb, hdisjTb⟩ := nodup_append_parts hndCB
      obtain ⟨hI1, hX1⟩ := visitOnce_mext st hI id .IfStmt
      obtain ⟨hI2, hX2⟩ := mapExpr_inv c _ hI1
      have hX12 : MExt (id :: exprIds c) st (mapExpr c (st.visitOnce id .IfStmt)) :=
        MExt.trans hX1 hX2 (fun x hx => by simpa using Or.inl (by simpa using hx))
          (fun x hx => List.mem_cons_of_mem _ hx)
      have hfreshTb : FreshIds (stmtSubIds tb) (mapExpr c (st.visitOnce id .IfStmt)) := by
        refine hfreshA.after hX12 ?_ ?_
        · intro x hx
          simp only [List.mem_append]
          exact Or.inl (Or.inr (sub_mem hx))
        · intro x hx
          have hxB : x ∈ stmtIds tb := sub_mem hx
          simp only [List.mem_cons, not_or]
          constructor
          · intro hxid
            exact hidA (by subst hxid; simp [List.mem_append, hxB])
          · exact hdisjTb x hxB
      obtain ⟨hI3, hX3⟩ := mapStmt_inv tb _ hI2 hndTb hfreshTb
      have hX123 : MExt (id :: (exprIds c ++ stmtIds tb)) st
          (mapStmt tb (mapExpr c (st.visitOnce id .IfStmt))) := by
        refine MExt.trans hX12 hX3 ?_ ?_
        · intro x hx
          simp only [List.mem_cons, List.mem_append] at hx ⊢
          tauto
        · intro x hx
          simp only [List.mem_cons, List.mem_append]
          exact Or.inr (Or.inr hx)
      have hfreshEb : FreshIds (stmtSubIds eb)
          (mapStmt tb (mapExpr c (st.visitOnce id .IfStmt))) := by
        refine hfreshA.after hX123 ?_ ?_
        · intro x hx
          simp only [List.mem_append]
          exact Or.inr (sub_mem hx)
        · intro x hx
          have hxC : x ∈ stmtIds eb := sub_mem hx
          simp only [List.mem_cons, not_or, List.mem_append]
          refine ⟨?_, ?_⟩
          · intro hxid
            exact hidA (by subst hxid; simp [List.mem_append, hxC])
          · have := hdisjEb x hxC
            simp only [List.mem_append] at this
            tauto
      obtain ⟨hI4, hX4⟩ := mapStmt_inv eb _ hI3 hndEb hfreshEb
      refine ⟨hI4, MExt.trans hX123 hX4 ?_ ?_⟩
      · intro x hx
        simp only [stmtIds, List.mem_cons, List.mem_append] at hx ⊢
        tauto
      · intro x hx
        simp only [stmtIds, List.mem_cons, List.mem_append]
        tauto
  | .ifnS id c tb, st => by
      intro hI hnd hfresh
      simp only [mapStmt]
      have hfreshA : FreshIds (exprIds c ++ stmtIds tb) st := hfresh
      obtain ⟨hid, hndSub⟩ := (by
        rw [stmtIds_eq, List.nodup_cons] at hnd
        exact hnd : id ∉ stmtSubIds (Stmt.ifnS id c tb) ∧
          (stmtSubIds (Stmt.ifnS id c tb)).Nodup)
      have hidA : id ∉ exprIds c ++ stmtIds tb := hid
      obtain ⟨hndC, hndTb, hdisjTb⟩ := nodup_append_parts hndSub
      obtain ⟨hI1, hX1⟩ := visitOnce_mext st hI id .IfStmt
      obtain ⟨hI2, hX2⟩ := mapExpr_inv c _ hI1
      have hX12 : MExt (id :: exprIds c) st (mapExpr c (st.visitOnce id .IfStmt)) :=
        MExt.trans hX1 hX2 (fun x hx => by simpa using Or.inl (by simpa using hx))
          (fun x hx => List.mem_cons_of_mem _ hx)
      have hfreshTb : FreshIds (stmtSubIds tb) (mapExpr c (st.visitOnce id .IfStmt)) := by
        refine hfreshA.after hX12 ?_ ?_
        · intro x hx
          simp only [List.mem_append]
          exact Or.inr (sub_mem hx)
        · intro x hx
          have hxB : x ∈ stmtIds tb := sub_mem hx
          simp only [List.mem_cons, not_or]
          exact ⟨fun hxid => hidA (by subst hxid; simp [List.mem_append, hxB]),
            hdisjTb x hxB⟩
      obtain ⟨hI3, hX3⟩ := mapStmt_inv tb _ hI2 hndTb hfreshTb
      refine ⟨hI3, MExt.trans hX12 hX3 ?_ ?_⟩
      · intro x hx
        simp only [stmtIds, List.mem_cons, List.mem_append] at hx ⊢
        tauto
      · intro x hx
        simp only [stmtIds, List.mem_cons, List.mem_append]
        tauto
  | .whileS id c b, st => by
      intro hI hnd hfresh
      simp only [mapStmt]
      have hfreshA : FreshIds (exprIds c ++ stmtIds b) st := hfresh
      obtain ⟨hid, hndSub⟩ := (by
        rw [stmtIds_eq, List.nodup_cons] at hnd
        exact hnd : id ∉ stmtSubIds (Stmt.whileS id c b) ∧
          (stmtSubIds (Stmt.whileS id c b)).Nodup)
      have hidA : id ∉ exprIds c ++ stmtIds b := hid
      obtain ⟨hndC, hndB, hdisjB⟩ := nodup_append_parts hndSub
      obtain ⟨hI1, hX1⟩ := visitOnce_mext st hI id .WhileStmt
      obtain ⟨hI2, hX2⟩ := mapExpr_inv c _ hI1
      have hX12 : MExt (id :: exprIds c) st (mapExpr c (st.visitOnce id .WhileStmt)) :=
        MExt.trans hX1 hX2 (fun x hx => by simpa using Or.inl (by simpa using hx))
          (fun x hx => List.mem_cons_of_mem _ hx)
      have hfreshB : FreshIds (stmtSubIds b) (mapExpr c (st.visitOnce id .WhileStmt)) := by
        refine hfreshA.after hX12 ?_ ?_
        · intro x hx
          simp only [List.mem_append]
          exact Or.inr (sub_mem hx)
        · intro x hx
          have hxB : x ∈ stmtIds b := sub_mem hx
          simp only [List.mem_cons, not_or]
          exact ⟨fun hxid => hidA (by subst hxid; simp [List.mem_append, hxB]),
            hdisjB x hxB⟩
      obtain ⟨hI3, hX3⟩ := mapStmt_inv b _ hI2 hndB hfreshB
      refine ⟨hI3, MExt.trans hX12 hX3 ?_ ?_⟩
      · intro x hx
        simp only [stmtIds, List.mem_cons, List.mem_append] at hx ⊢
        tauto
      · intro x hx
        simp only [stmtIds, List.mem_cons, List.mem_append]
        tauto
  | .doS id b c, st => by
      intro hI hnd hfresh
      simp only [mapStmt]
      have hfreshA : FreshIds (stmtIds b ++ exprIds c) st := hfresh
      obtain ⟨hid, hndSub⟩ := (by
        rw [stmtIds_eq, List.nodup_cons] at hnd
        exact hnd : id ∉ stmtSubIds (Stmt.doS id b c) ∧
          (stmtSubIds (Stmt.doS id b c)).Nodup)
      have hidA : id ∉ stmtIds b ++ exprIds c := hid
      obtain ⟨hndB, hndC, hdisjC⟩ := nodup_append_parts hndSub
      obtain ⟨hI1, hX1⟩ := visitOnce_mext st hI id .DoStmt
      have hfreshB : FreshIds (stmtSubIds b) (st.visitOnce id .DoStmt) := by
        refine hfreshA.after hX1 ?_ ?_
        · intro x hx
          simp only [List.mem_append]
          exact Or.inl (sub_mem hx)
        · intro x hx
          have hxB : x ∈ stmtIds b := sub_mem hx
          simp only [List.mem_singleton]
          exact fun hxid => hidA (by subst hxid; simp [List.mem_append, hxB])
      obtain ⟨hI2, hX2⟩ := mapStmt_inv b _ hI1 hndB hfreshB
      have hX12 : MExt (id :: stmtIds b) st (mapStmt b (st.visitOnce id .DoStmt)) :=
        MExt.trans hX1 hX2 (fun x hx => by simpa using Or.inl (by simpa using hx))
          (fun x hx => List.mem_cons_of_mem _ hx)
      obtain ⟨hI3, hX3⟩ := mapExpr_inv c _ hI2
      refine ⟨hI3, MExt.trans hX12 hX3 ?_ ?_⟩
      · intro x hx
        simp only [stmtIds, List.mem_cons, List.mem_append] at hx ⊢
        tauto
      · intro x hx
        simp only [stmtIds, List.mem_cons, List.mem_append]
        tauto
  | .tryCatchS id b cs, st => by
      intro hI hnd hfresh
      simp only [mapStmt]
      have hfreshA : FreshIds (stmtIds b ++ catchIds cs) st := hfresh
      obtain ⟨hid, hndSub⟩ := (by
        rw [stmtIds_eq, List.nodup_cons] at hnd
        exact hnd : id ∉ stmtSubIds (Stmt.tryCatchS id b cs) ∧
          (stmtSubIds (Stmt.tryCatchS id b cs)).Nodup)
      have hidA : id ∉ stmtIds b ++ catchIds cs := hid
      obtain ⟨hndB, hndCs, hdisjCs⟩ := nodup_append_parts hndSub
      have key : ∀ st1 : MapState, MapInv st1 →
          MExt (id :: catchHeadIds cs) st st1 →
          MapInv (mapCatches cs (mapStmt b st1)) ∧
          MExt (stmtIds (Stmt.tryCatchS id b cs)) st (mapCatches cs (mapStmt b st1)) := by
        intro st1 hI1 hX1
        have hfreshB : FreshIds (stmtSubIds b) st1 := by
          refine hfreshA.after hX1 ?_ ?_
          · intro x hx
            simp only [List.mem_append]
            exact Or.inl (sub_mem hx)
          · intro x hx
            have hxB : x ∈ stmtIds b := sub_mem hx
            simp only [List.mem_cons, not_or]
            refine ⟨fun hxid => hidA (by subst hxid; simp [List.mem_append, hxB]), ?_⟩
            intro hxh
            exact hdisjCs x (catchHeadIds_sub cs x hxh) hxB
        obtain ⟨hI2, hX2⟩ := mapStmt_inv b st1 hI1 hndB hfreshB
        have hX12 : MExt (id :: (catchHeadIds cs ++ stmtIds b)) st (mapStmt b st1) := by
          refine MExt.trans hX1 hX2 ?_ ?_
          · intro x hx
            simp only [List.mem_cons, List.mem_append] at hx ⊢
            tauto
          · intro x hx
            simp only [List.mem_cons, List.mem_append]
            tauto
        have hfreshH : FreshIds (handlerIds cs) (mapStmt b st1) := by
          refine hfreshA.after hX12 ?_ ?_
          · intro x hx
            simp only [List.mem_append]
            exact Or.inr (handlerIds_sub cs x hx)
          · intro x hx
            have hxC : x ∈ catchIds cs := handlerIds_sub cs x hx
            simp only [List.mem_cons, not_or, List.mem_append]
            refine ⟨fun hxid => hidA (by subst hxid; simp [List.mem_append, hxC]), ?_, ?_⟩
            · intro hxh
              exact handler_head_disjoint cs hndCs x hx hxh
            · intro hxb
              exact hdisjCs x hxC hxb
        obtain ⟨hI3, hX3⟩ := mapCatches_inv cs (mapStmt b st1) hI2 hndCs hfreshH
        refine ⟨hI3, MExt.trans hX12 hX3 ?_ ?_⟩
        · intro x hx
          simp only [stmtIds, List.mem_cons, List.mem_append] at hx ⊢
          rcases hx with hx | hx | hx
          · exact Or.inl hx
          · exact Or.inr (Or.inr (catchHeadIds_sub cs x hx))
          · exact Or.inr (Or.inl hx)
        · intro x hx
          simp only [stmtIds, List.mem_cons, List.mem_append]
          exact Or.inr (Or.inr hx)
      by_cases hlk : (st.CounterMap.lookup id).isSome
      · rw [if_pos hlk]
        exact key st hI (MExt.refl _ st)
      · rw [if_neg hlk]
        have hlook : st.CounterMap.lookup id = none := by
          cases hm : st.CounterMap.lookup id with
          | some w => simp [hm] at hlk
          | none => rfl
        obtain ⟨hI1, hmap1, htok1, hnext1⟩ := assign_inv hI hlook HashType.TryCatchStmt
        have hndHeads : (catchHeadIds cs).Nodup := nodup_catchHeadIds cs hndCs
        have hfreshHeads : FreshIds (catchHeadIds cs) (st.assign id HashType.TryCatchStmt) := by
          intro x hx hmem
          rw [hmap1, List.map_append, List.mem_append] at hmem
          rcases hmem with hmem | hmem
          · exact hfreshA x (by simp [List.mem_append, catchHeadIds_sub cs x hx]) hmem
          · simp only [List.map_cons, List.map_nil, List.mem_singleton] at hmem
            exact hidA (by subst hmem; simp [List.mem_append, catchHeadIds_sub cs x hx])
        obtain ⟨hI2, hmap2, hnext2, htok2⟩ :=
          assignCatches_spec cs _ hI1 hndHeads hfreshHeads
        refine key _ hI2 ⟨⟨(id, st.NextCounter) :: catchEntries cs (st.NextCounter + 1), ?_, ?_⟩,
          ⟨HashType.TryCatchStmt :: List.replicate (catchLen cs) HashType.TryCatchCatch, ?_⟩⟩
        · rw [hmap2, hmap1, hnext1]
          simp [List.append_assoc]
        · intro x hx
          simp only [List.map_cons, List.mem_cons, catchEntries_keys] at hx
          simpa using hx
        · rw [htok2, htok1]
          simp [List.append_assoc]
  | .nestedFuncS id fb, st => by
      intro hI hnd hfresh
      simp only [mapStmt]
      by_cases hz : st.NextCounter ≠ 0
      · rw [if_pos hz]
        exact ⟨hI, MExt.refl _ st⟩
      · rw [if_neg hz]
        have hz0 : st.NextCounter = 0 := by omega
        have hmap0 : st.CounterMap = [] := by
          have h1 : st.CounterMap.map Prod.snd = [] := by
            rw [hI, hz0]
            rfl
          exact List.map_eq_nil_iff.mp h1
        have hlook : st.CounterMap.lookup (stmtId fb) = none := by
          rw [hmap0]
          rfl
        obtain ⟨hI1, hmap1, htok1, hnext1⟩ := assignNoHash_inv hI hlook
        have hndFb : (stmtIds fb).Nodup := by
          rw [stmtIds_eq, List.nodup_cons] at hnd
          exact hnd.2
        obtain ⟨hndFbSub, hfbtop⟩ := nodup_parts hndFb
        have hfreshFb : FreshIds (stmtSubIds fb) (st.assignNoHash (stmtId fb)) := by
          intro x hx hmem
          rw [hmap1, hmap0, List.nil_append] at hmem
          simp only [List.map_cons, List.map_nil, List.mem_singleton] at hmem
          exact hfbtop (hmem ▸ hx)
        obtain ⟨hI2, hX2⟩ := mapStmt_inv fb _ hI1 hndFb hfreshFb
        have hX1 : MExt (stmtIds (Stmt.nestedFuncS id fb)) st (st.assignNoHash (stmtId fb)) := by
          refine ⟨⟨[(stmtId fb, st.NextCounter)], hmap1, ?_⟩, ⟨[], by simp [htok1]⟩⟩
          intro x hx
          simp only [List.map_cons, List.map_nil, List.mem_singleton] at hx
          subst hx
          simp only [stmtIds, List.mem_cons]
          exact Or.inr (by rw [stmtIds_eq]; exact List.mem_cons_self _ _)
        refine ⟨hI2, MExt.trans hX1 hX2 (fun x hx => hx) ?_⟩
        intro x hx
        simp only [stmtIds, List.mem_cons]
        exact Or.inr hx

theorem mapCatches_inv : ∀ (cs : Catches) (st : MapState), MapInv st →
    (catchIds cs).Nodup → FreshIds (handlerIds cs) st →
    MapInv (mapCatches cs st) ∧ MExt (catchIds cs) st (mapCatches cs st)
  | .nil, st => by
      intro hI _ _
      simp only [mapCatches]
      exact ⟨hI, MExt.refl _ st⟩
  | .cons cid h rest, st => by
      intro hI hnd hfresh
      simp only [mapCatches]
      have hfreshA : FreshIds (stmtIds h ++ handlerIds rest) st := hfresh
      simp only [catchIds, List.nodup_cons] at hnd
      obtain ⟨hcid, hndSub⟩ := hnd
      obtain ⟨hndH, hndRest, hdisjRest⟩ := nodup_append_parts hndSub
      obtain ⟨hndHSub, _⟩ := nodup_parts hndH
      obtain ⟨hI1, hX1⟩ := mapStmt_inv h st hI hndH
        (hfreshA.sub (fun x hx => List.mem_append_left _ (sub_mem hx)))
      have hfreshRest : FreshIds (handlerIds rest) (mapStmt h st) := by
        refine hfreshA.after hX1 ?_ ?_
        · exact fun x hx => List.mem_append_right _ hx
        · intro x hx
          exact fun hxh => hdisjRest x (handlerIds_sub rest x hx) hxh
      obtain ⟨hI2, hX2⟩ := mapCatches_inv rest (mapStmt h st) hI1 hndRest hfreshRest
      refine ⟨hI2, MExt.trans hX1 hX2 ?_ ?_⟩
      · intro x hx
        simp only [catchIds, List.mem_cons, List.mem_append]
        tauto
      · intro x hx
        simp only [catchIds, List.mem_cons, List.mem_append]
        exact Or.inr (Or.inr hx)

end

theorem catchEntries_length : ∀ (cs : Catches) (n : Nat),
    (catchEntries cs n).length = catchLen cs
  | .nil, _ => rfl
  | .cons cid hh rest, n => by
      simp only [catchEntries, List.length_cons, catchLen]
      rw [catchEntries_length rest (n + 1)]

theorem range_suffix_ge {A B : List Nat} {M : Nat} (h : A ++ B = List.range M) :
    ∀ v ∈ B, A.length ≤ v := by
  intro v hv
  by_contra hlt
  push_neg at hlt
  have hvM : v < M := by
    have hmem : v ∈ List.range M := by
      rw [← h]
      exact List.mem_append_right _ hv
    exact List.mem_range.mp hmem
  have hA : A = List.take A.length (List.range M) := by
    rw [← h, List.take_left]
  have hvA : v ∈ A := by
    rw [hA, List.take_range]
    exact List.mem_range.mpr (lt_min hlt hvM)
  have hnd : (A ++ B).Nodup := by
    rw [h]
    exact List.nodup_range M
  obtain ⟨_, _, hdisj⟩ := nodup_append_parts hnd
  exact hdisj v hv hvA

/-- C1: after `mapRegionCounters` completes on any function body with
distinct node identities, `NumRegionCounters` (the final `NextCounter`)
equals the number of `CounterMap` entries, the assigned counter indices are
exactly `0, 1, ..., NumRegionCounters - 1` with no gaps or duplicates, and
index 0 is assigned to the function body's entry node. -/
theorem mapRegionCounters_dense (fbody : Stmt) (hnd : (stmtIds fbody).Nodup) :
    (mapRegionCounters fbody).NextCounter =
      (mapRegionCounters fbody).CounterMap.length ∧
    (mapRegionCounters fbody).CounterMap.map Prod.snd =
      List.range (mapRegionCounters fbody).NextCounter ∧
    (mapRegionCounters fbody).CounterMap.lookup (stmtId fbody) = some 0 := by
  have hI0 : MapInv (MapState.mk 0 [] []) := rfl
  have hlook : (MapState.mk 0 [] []).CounterMap.lookup (stmtId fbody) = none := rfl
  obtain ⟨hI1, hmap1, htok1, hnext1⟩ := assignNoHash_inv hI0 hlook
  obtain ⟨hndSub, htop⟩ := nodup_parts hnd
  have hfresh : FreshIds (stmtSubIds fbody)
      ((MapState.mk 0 [] []).assignNoHash (stmtId fbody)) := by
    intro x hx hmem
    rw [hmap1] at hmem
    simp only [List.nil_append, List.map_cons, List.map_nil,
      List.mem_singleton] at hmem
    exact htop (hmem ▸ hx)
  obtain ⟨hI2, hX2⟩ := mapStmt_inv fbody _ hI1 hnd hfresh
  refine ⟨(MapInv.length hI2).symm, hI2, ?_⟩
  obtain ⟨⟨ext, hm, _⟩, _⟩ := hX2
  show (mapStmt fbody ((MapState.mk 0 [] []).assignNoHash (stmtId fbody))).CounterMap.lookup
    (stmtId fbody) = some 0
  rw [hm, hmap1]
  apply lookup_append_some
  simp [List.lookup_cons]

/-- Witness for C1 at a concrete function body: a compound of an `if`
without else and a plain expression statement. -/
theorem mapRegionCounters_dense_witness :
    (stmtIds (Stmt.compoundS 0 (Stmt.ifnS 1 (Expr.atomE 2)
        (Stmt.expS 3 (Expr.atomE 4))) (Stmt.expS 5 (Expr.atomE 6)))).Nodup ∧
    ((mapRegionCounters (Stmt.compoundS 0 (Stmt.ifnS 1 (Expr.atomE 2)
        (Stmt.expS 3 (Expr.atomE 4))) (Stmt.expS 5 (Expr.atomE 6)))).NextCounter =
      (mapRegionCounters (Stmt.compoundS 0 (Stmt.ifnS 1 (Expr.atomE 2)
        (Stmt.expS 3 (Expr.atomE 4))) (Stmt.expS 5 (Expr.atomE 6)))).CounterMap.length ∧
    (mapRegionCounters (Stmt.compoundS 0 (Stmt.ifnS 1 (Expr.atomE 2)
        (Stmt.expS 3 (Expr.atomE 4))) (Stmt.expS 5 (Expr.atomE 6)))).CounterMap.map Prod.snd =
      List.range (mapRegionCounters (Stmt.compoundS 0 (Stmt.ifnS 1 (Expr.atomE 2)
        (Stmt.expS 3 (Expr.atomE 4))) (Stmt.expS 5 (Expr.atomE 6)))).NextCounter ∧
    (mapRegionCounters (Stmt.compoundS 0 (Stmt.ifnS 1 (Expr.atomE 2)
        (Stmt.expS 3 (Expr.atomE 4))) (Stmt.expS 5 (Expr.atomE 6)))).CounterMap.lookup
      (stmtId (Stmt.compoundS 0 (Stmt.ifnS 1 (Expr.atomE 2)
        (Stmt.expS 3 (Expr.atomE 4))) (Stmt.expS 5 (Expr.atomE 6)))) = some 0) :=
  ⟨by decide, mapRegionCounters_dense _ (by decide)⟩

/-- C10: on the first visit of a try/catch statement, the mapping pass
assigns the construct's own counter and then one counter per catch clause,
consecutively in catch declaration order, all before any counter of a node
inside the try body or a catch handler (every later entry's index exceeds
them); the hash receives a `TryCatchStmt` token followed by one
`TryCatchCatch` token per catch clause, in the same order. -/
theorem mapStmt_trycatch_order (id : Nat) (b : Stmt) (cs : Catches)
    (st : MapState) (hI : MapInv st)
    (hnd : (stmtIds (Stmt.tryCatchS id b cs)).Nodup)
    (hfresh : FreshIds (stmtIds (Stmt.tryCatchS id b cs)) st) :
    ∃ rest,
      (mapStmt (Stmt.tryCatchS id b cs) st).CounterMap =
        st.CounterMap ++ ((id, st.NextCounter) ::
          catchEntries cs (st.NextCounter + 1)) ++ rest ∧
      (∀ v ∈ rest.map Prod.snd, st.NextCounter + catchLen cs < v) ∧
      ∃ ts, (mapStmt (Stmt.tryCatchS id b cs) st).tokens =
        st.tokens ++ (HashType.TryCatchStmt ::
          List.replicate (catchLen cs) HashType.TryCatchCatch) ++ ts := by
  simp only [mapStmt]
  have hfreshA : FreshIds (stmtIds b ++ catchIds cs) st :=
    hfresh.sub (fun x hx => by
      simp only [stmtIds, List.mem_cons]
      exact Or.inr hx)
  obtain ⟨hid, hndSub⟩ := (by
    rw [stmtIds_eq, List.nodup_cons] at hnd
    exact hnd : id ∉ stmtSubIds (Stmt.tryCatchS id b cs) ∧
      (stmtSubIds (Stmt.tryCatchS id b cs)).Nodup)
  have hidA : id ∉ stmtIds b ++ catchIds cs := hid
  obtain ⟨hndB, hndCs, hdisjCs⟩ := nodup_append_parts hndSub
  have hlook : st.CounterMap.lookup id = none := by
    apply lookup_eq_none_of_not_mem_keys
    exact hfresh id (by rw [stmtIds_eq]; exact List.mem_cons_self _ _)
  have hlk : ¬(st.CounterMap.lookup id).isSome := by
    rw [hlook]
    simp
  rw [if_neg hlk]
  obtain ⟨hI1, hmap1, htok1, hnext1⟩ := assign_inv hI hlook HashType.TryCatchStmt
  have hndHeads : (catchHeadIds cs).Nodup := nodup_catchHeadIds cs hndCs
  have hfreshHeads : FreshIds (catchHeadIds cs) (st.assign id HashType.TryCatchStmt) := by
    intro x hx hmem
    rw [hmap1, List.map_append, List.mem_append] at hmem
    rcases hmem with hmem | hmem
    · exact hfreshA x (by simp [List.mem_append, catchHeadIds_sub cs x hx]) hmem
    · simp only [List.map_cons, List.map_nil, List.mem_singleton] at hmem
      exact hidA (by subst hmem; simp [List.mem_append, catchHeadIds_sub cs x hx])
  obtain ⟨hI2, hmap2, hnext2, htok2⟩ := assignCatches_spec cs _ hI1 hndHeads hfreshHeads
  have hmap2' : (assignCatches cs (st.assign id HashType.TryCatchStmt)).CounterMap =
      st.CounterMap ++ ((id, st.NextCounter) :: catchEntries cs (st.NextCounter + 1)) := by
    rw [hmap2, hmap1, hnext1]
    simp [List.append_assoc]
  have htok2' : (assignCatches cs (st.assign id HashType.TryCatchStmt)).tokens =
      st.tokens ++ (HashType.TryCatchStmt ::
        List.replicate (catchLen cs) HashType.TryCatchCatch) := by
    rw [htok2, htok1]
    simp [List.append_assoc]
  have hX2 : MExt (id :: catchHeadIds cs) st
      (assignCatches cs (st.assign id HashType.TryCatchStmt)) := by
    refine ⟨⟨(id, st.NextCounter) :: catchEntries cs (st.NextCounter + 1), hmap2', ?_⟩,
      ⟨HashType.TryCatchStmt :: List.replicate (catchLen cs) HashType.TryCatchCatch, htok2'⟩⟩
    intro x hx
    simp only [List.map_cons, List.mem_cons, catchEntries_keys] at hx
    simpa using hx
  have hfreshB : FreshIds (stmtSubIds b)
      (assignCatches cs (st.assign id HashType.TryCatchStmt)) := by
    refine hfreshA.after hX2 ?_ ?_
    · intro x hx
      simp only [List.mem_append]
      exact Or.inl (sub_mem hx)
    · intro x hx
      have hxB : x ∈ stmtIds b := sub_mem hx
      simp only [List.mem_cons, not_or]
      refine ⟨fun hxid => hidA (by subst hxid; simp [List.mem_append, hxB]), ?_⟩
      intro hxh
      exact hdisjCs x (catchHeadIds_sub cs x hxh) hxB
  obtain ⟨hI3, hX3⟩ := mapStmt_inv b _ hI2 hndB hfreshB
  have hX23 : MExt (id :: (catchHeadIds cs ++ stmtIds b)) st
      (mapStmt b (assignCatches cs (st.assign id HashType.TryCatchStmt))) := by
    refine MExt.trans hX2 hX3 ?_ ?_
    · intro x hx
      simp only [List.mem_cons, List.mem_append] at hx ⊢
      tauto
    · intro x hx
      simp only [List.mem_cons, List.mem_append]
      tauto
  have hfreshH : FreshIds (handlerIds cs)
      (mapStmt b (assignCatches cs (st.assign id HashType.TryCatchStmt))) := by
    refine hfreshA.after hX23 ?_ ?_
    · intro x hx
      simp only [List.mem_append]
      exact Or.inr (handlerIds_sub cs x hx)
    · intro x hx
      have hxC : x ∈ catchIds cs := handlerIds_sub cs x hx
      simp only [List.mem_cons, not_or, List.mem_append]
      refine ⟨fun hxid => hidA (by subst hxid; simp [List.mem_append, hxC]), ?_, ?_⟩
      · intro hxh
        exact handler_head_disjoint cs hndCs x hx hxh
      · intro hxb
        exact hdisjCs x hxC hxb
  obtain ⟨hI4, hX4⟩ := mapCatches_inv cs _ hI3 hndCs hfreshH
  obtain ⟨⟨e3, hm3, hk3⟩, ⟨t3, ht3⟩⟩ := hX3
  obtain ⟨⟨e4, hm4, hk4⟩, ⟨t4, ht4⟩⟩ := hX4
  refine ⟨e3 ++ e4, ?_, ?_, ⟨t3 ++ t4, ?_⟩⟩
  · rw [hm4, hm3, hmap2']
    exact List.append_assoc _ _ _
  · intro v hv
    have hAB : (st.CounterMap ++
        ((id, st.NextCounter) :: catchEntries cs (st.NextCounter + 1))) ++ (e3 ++ e4) =
        (mapCatches cs (mapStmt b
          (assignCatches cs (st.assign id HashType.TryCatchStmt)))).CounterMap := by
      rw [hm4, hm3, hmap2']
      exact (List.append_assoc _ _ _).symm
    have hA : ((st.CounterMap ++
        ((id, st.NextCounter) :: catchEntries cs (st.NextCounter + 1))).map Prod.snd)
        ++ ((e3 ++ e4).map Prod.snd) =
        List.range ((mapCatches cs (mapStmt b
          (assignCatches cs (st.assign id HashType.TryCatchStmt)))).NextCounter) := by
      rw [← List.map_append, hAB]
      exact hI4
    have hge := range_suffix_ge hA v hv
    have hlen : ((st.CounterMap ++
        ((id, st.NextCounter) :: catchEntries cs (st.NextCounter + 1))).map Prod.snd).length
        = st.NextCounter + 1 + catchLen cs := by
      simp only [List.length_map, List.length_append, List.length_cons,
        catchEntries_length, MapInv.length hI]
      omega
    rw [hlen] at hge
    omega
  · rw [ht4, ht3, htok2']
    exact List.append_assoc _ _ _

/-- Witness for C10: a try/catch with two catch clauses, first visited in a
state already holding the entry counter 0. -/
theorem mapStmt_trycatch_order_witness :
    (MapInv (MapState.mk 1 [(0, 0)] []) ∧
     (stmtIds (Stmt.tryCatchS 1 (Stmt.expS 2 (Expr.atomE 3))
       (Catches.cons 4 (Stmt.expS 5 (Expr.atomE 6))
         (Catches.cons 7 (Stmt.expS 8 (Expr.atomE 9)) Catches.nil)))).Nodup ∧
     FreshIds (stmtIds (Stmt.tryCatchS 1 (Stmt.expS 2 (Expr.atomE 3))
       (Catches.cons 4 (Stmt.expS 5 (Expr.atomE 6))
         (Catches.cons 7 (Stmt.expS 8 (Expr.atomE 9)) Catches.nil))))
       (MapState.mk 1 [(0, 0)] [])) ∧
    ∃ rest,
      (mapStmt (Stmt.tryCatchS 1 (Stmt.expS 2 (Expr.atomE 3))
        (Catches.cons 4 (Stmt.expS 5 (Expr.atomE 6))
          (Catches.cons 7 (Stmt.expS 8 (Expr.atomE 9)) Catches.nil)))
        (MapState.mk 1 [(0, 0)] [])).CounterMap =
        (MapState.mk 1 [(0, 0)] []).CounterMap ++ ((1, (MapState.mk 1 [(0, 0)] []).NextCounter) ::
          catchEntries (Catches.cons 4 (Stmt.expS 5 (Expr.atomE 6))
            (Catches.cons 7 (Stmt.expS 8 (Expr.atomE 9)) Catches.nil))
            ((MapState.mk 1 [(0, 0)] []).NextCounter + 1)) ++ rest ∧
      (∀ v ∈ rest.map Prod.snd,
        (MapState.mk 1 [(0, 0)] []).NextCounter +
          catchLen (Catches.cons 4 (Stmt.expS 5 (Expr.atomE 6))
            (Catches.cons 7 (Stmt.expS 8 (Expr.atomE 9)) Catches.nil)) < v) ∧
      ∃ ts, (mapStmt (Stmt.tryCatchS 1 (Stmt.expS 2 (Expr.atomE 3))
        (Catches.cons 4 (Stmt.expS 5 (Expr.atomE 6))
          (Catches.cons 7 (Stmt.expS 8 (Expr.atomE 9)) Catches.nil)))
        (MapState.mk 1 [(0, 0)] [])).tokens =
        (MapState.mk 1 [(0, 0)] []).tokens ++ (HashType.TryCatchStmt ::
          List.replicate (catchLen (Catches.cons 4 (Stmt.expS 5 (Expr.atomE 6))
            (Catches.cons 7 (Stmt.expS 8 (Expr.atomE 9)) Catches.nil)))
            HashType.TryCatchCatch) ++ ts :=
  ⟨⟨rfl, by decide, by unfold FreshIds; decide⟩,
    mapStmt_trycatch_order 1 (Stmt.expS 2 (Expr.atomE 3))
      (Catches.cons 4 (Stmt.expS 5 (Expr.atomE 6))
        (Catches.cons 7 (Stmt.expS 8 (Expr.atomE 9)) Catches.nil))
      (MapState.mk 1 [(0, 0)] []) rfl (by decide) (by unfold FreshIds; decide)⟩

/-! ## Counting-pass invariants -/

theorem recordStmt_cur (id : Nat) (st : CountState) :
    (recordStmt id st).CurrentCount = st.CurrentCount := by
  unfold recordStmt
  split <;> rfl

theorem recordStmt_stack (id : Nat) (st : CountState) :
    (recordStmt id st).stack = st.stack := by
  unfold recordStmt
  split <;> rfl

theorem recordStmt_lookup (id : Nat) (st : CountState) {k : Nat}
    (hv : st.CountMap.lookup k = some st.CurrentCount) :
    (recordStmt id st).CountMap.lookup k = some st.CurrentCount := by
  unfold recordStmt
  split
  · by_cases hk : k = id
    · subst hk
      exact mapInsert_lookup_self k st.CurrentCount
    · rw [mapInsert_lookup_ne _ hk]
      exact hv
  · exact hv

theorem recordStmt_lookup_ne (id : Nat) (st : CountState) {k : Nat} (hk : k ≠ id) :
    (recordStmt id st).CountMap.lookup k = st.CountMap.lookup k := by
  unfold recordStmt
  split
  · rw [mapInsert_lookup_ne _ hk]
  · rfl

theorem countExpr_stack (rc : Nat → Nat) (e : Expr) : ∀ st : CountState,
    (countExpr rc e st).stack = st.stack := by
  induction e with
  | atomE id => intro st; rfl
  | condE id ec e1 e2 ihc ih1 ih2 =>
      intro st
      simp only [countExpr]
      rw [ih2, ih1, ihc, recordStmt_stack]
  | andandE id e1 e2 ih1 ih2 =>
      intro st
      simp only [countExpr]
      rw [ih2, ih1, recordStmt_stack]
  | ororE id e1 e2 ih1 ih2 =>
      intro st
      simp only [countExpr]
      rw [ih2, ih1, recordStmt_stack]

theorem exprId_mem (e : Expr) : exprId e ∈ exprIds e := by
  cases e <;> simp [exprIds, exprId]

theorem countExpr_lookup_outside (rc : Nat → Nat) (e : Expr) : ∀ (st : CountState)
    (k : Nat), k ∉ exprIds e →
    (countExpr rc e st).CountMap.lookup k = st.CountMap.lookup k := by
  induction e with
  | atomE id =>
      intro st k _
      rfl
  | condE id ec e1 e2 ihc ih1 ih2 =>
      intro st k hk
      have hkid : k ≠ id := fun h => hk (by simp [exprIds, h])
      have hkc : k ∉ exprIds ec := fun h => hk (by simp [exprIds, List.mem_append, h])
      have hk1 : k ∉ exprIds e1 := fun h => hk (by simp [exprIds, List.mem_append, h])
      have hk2 : k ∉ exprIds e2 := fun h => hk (by simp [exprIds, List.mem_append, h])
      have hoc : ∀ X : CountState, (countExpr rc ec X).CountMap.lookup k =
        X.CountMap.lookup k := fun X => ihc X k hkc
      have ho1 : ∀ X : CountState, (countExpr rc e1 X).CountMap.lookup k =
        X.CountMap.lookup k := fun X => ih1 X k hk1
      have ho2 : ∀ X : CountState, (countExpr rc e2 X).CountMap.lookup k =
        X.CountMap.lookup k := fun X => ih2 X k hk2
      have hne1 : k ≠ exprId e1 := fun h => hk1 (h ▸ exprId_mem e1)
      have hne2 : k ≠ exprId e2 := fun h => hk2 (h ▸ exprId_mem e2)
      simp only [countExpr, ho1, ho2, hoc, mapInsert_lookup_ne _ hne1,
        mapInsert_lookup_ne _ hne2, recordStmt_lookup_ne id st hkid]
  | andandE id e1 e2 ih1 ih2 =>
      intro st k hk
      have hkid : k ≠ id := fun h => hk (by simp [exprIds, h])
      have hk1 : k ∉ exprIds e1 := fun h => hk (by simp [exprIds, List.mem_append, h])
      have hk2 : k ∉ exprIds e2 := fun h => hk (by simp [exprIds, List.mem_append, h])
      have ho1 : ∀ X : CountState, (countExpr rc e1 X).CountMap.lookup k =
        X.CountMap.lookup k := fun X => ih1 X k hk1
      have ho2 : ∀ X : CountState, (countExpr rc e2 X).CountMap.lookup k =
        X.CountMap.lookup k := fun X => ih2 X k hk2
      have hne2 : k ≠ exprId e2 := fun h => hk2 (h ▸ exprId_mem e2)
      simp only [countExpr, ho1, ho2, mapInsert_lookup_ne _ hne2,
        recordStmt_lookup_ne id st hkid]
  | ororE id e1 e2 ih1 ih2 =>
      intro st k hk
      have hkid : k ≠ id := fun h => hk (by simp [exprIds, h])
      have hk1 : k ∉ exprIds e1 := fun h => hk (by simp [exprIds, List.mem_append, h])
      have hk2 : k ∉ exprIds e2 := fun h => hk (by simp [exprIds, List.mem_append, h])
      have ho1 : ∀ X : CountState, (countExpr rc e1 X).CountMap.lookup k =
        X.CountMap.lookup k := fun X => ih1 X k hk1
      have ho2 : ∀ X : CountState, (countExpr rc e2 X).CountMap.lookup k =
        X.CountMap.lookup k := fun X => ih2 X k hk2
      have hne2 : k ≠ exprId e2 := fun h => hk2 (h ▸ exprId_mem e2)
      simp only [countExpr, ho1, ho2, mapInsert_lookup_ne _ hne2,
        recordStmt_lookup_ne id st hkid]

theorem popBC_map (st : CountState) : (popBC st).2.CountMap = st.CountMap := by
  unfold popBC
  split <;> rfl

theorem popBC_cur (st : CountState) : (popBC st).2.CurrentCount = st.CurrentCount := by
  unfold popBC
  split <;> rfl

theorem popBC_stack (st : CountState) : (popBC st).2.stack = st.stack.tail := by
  unfold popBC
  split
  · next heq => rw [heq]; rfl
  · next bc rest heq => rw [heq]; rfl

theorem stmtId_mem (s : Stmt) : stmtId s ∈ stmtIds s := by
  rw [stmtIds_eq]
  exact List.mem_cons_self _ _

theorem countExpr_keeps (rc : Nat → Nat) (e : Expr) (st : CountState) (k : Nat)
    (hk : k ∉ exprSubIds e) (hv : st.CountMap.lookup k = some st.CurrentCount) :
    (countExpr rc e st).CountMap.lookup k = some st.CurrentCount := by
  cases e with
  | atomE id => exact hv
  | condE id ec e1 e2 =>
      have hkc : k ∉ exprIds ec := fun h => hk (by
        show k ∈ exprIds ec ++ exprIds e1 ++ exprIds e2
        simp [List.mem_append, h])
      have hk1 : k ∉ exprIds e1 := fun h => hk (by
        show k ∈ exprIds ec ++ exprIds e1 ++ exprIds e2
        simp [List.mem_append, h])
      have hk2 : k ∉ exprIds e2 := fun h => hk (by
        show k ∈ exprIds ec ++ exprIds e1 ++ exprIds e2
        simp [List.mem_append, h])
      have hoc : ∀ X : CountState, (countExpr rc ec X).CountMap.lookup k =
        X.CountMap.lookup k := fun X => countExpr_lookup_outside rc ec X k hkc
      have ho1 : ∀ X : CountState, (countExpr rc e1 X).CountMap.lookup k =
        X.CountMap.lookup k := fun X => countExpr_lookup_outside rc e1 X k hk1
      have ho2 : ∀ X : CountState, (countExpr rc e2 X).CountMap.lookup k =
        X.CountMap.lookup k := fun X => countExpr_lookup_outside rc e2 X k hk2
      have hne1 : k ≠ exprId e1 := fun h => hk1 (h ▸ exprId_mem e1)
      have hne2 : k ≠ exprId e2 := fun h => hk2 (h ▸ exprId_mem e2)
      simp only [countExpr, ho1, ho2, hoc, mapInsert_lookup_ne _ hne1,
        mapInsert_lookup_ne _ hne2]
      exact recordStmt_lookup id st hv
  | andandE id e1 e2 =>
      have hk1 : k ∉ exprIds e1 := fun h => hk (by
        show k ∈ exprIds e1 ++ exprIds e2
        simp [List.mem_append, h])
      have hk2 : k ∉ exprIds e2 := fun h => hk (by
        show k ∈ exprIds e1 ++ exprIds e2
        simp [List.mem_append, h])
      have ho1 : ∀ X : CountState, (countExpr rc e1 X).CountMap.lookup k =
        X.CountMap.lookup k := fun X => countExpr_lookup_outside rc e1 X k hk1
      have ho2 : ∀ X : CountState, (countExpr rc e2 X).CountMap.lookup k =
        X.CountMap.lookup k := fun X => countExpr_lookup_outside rc e2 X k hk2
      have hne2 : k ≠ exprId e2 := fun h => hk2 (h ▸ exprId_mem e2)
      simp only [countExpr, ho1, ho2, mapInsert_lookup_ne _ hne2]
      exact recordStmt_lookup id st hv
  | ororE id e1 e2 =>
      have hk1 : k ∉ exprIds e1 := fun h => hk (by
        show k ∈ exprIds e1 ++ exprIds e2
        simp [List.mem_append, h])
      have hk2 : k ∉ exprIds e2 := fun h => hk (by
        show k ∈ exprIds e1 ++ exprIds e2
        simp [List.mem_append, h])
      have ho1 : ∀ X : CountState, (countExpr rc e1 X).CountMap.lookup k =
        X.CountMap.lookup k := fun X => countExpr_lookup_outside rc e1 X k hk1
      have ho2 : ∀ X : CountState, (countExpr rc e2 X).CountMap.lookup k =
        X.CountMap.lookup k := fun X => countExpr_lookup_outside rc e2 X k hk2
      have hne2 : k ≠ exprId e2 := fun h => hk2 (h ▸ exprId_mem e2)
      simp only [countExpr, ho1, ho2, mapInsert_lookup_ne _ hne2]
      exact recordStmt_lookup id st hv

mutual

theorem countStmt_stack (rc : Nat → Nat) : ∀ (s : Stmt) (st : CountState),
    (countStmt rc s st).stack.length = st.stack.length ∧
    (countStmt rc s st).stack.tail = st.stack.tail
  | .expS id e, st => by
      constructor <;> simp [countStmt, countExpr_stack, recordStmt_stack]
  | .compoundS id s1 s2, st => by
      have h1l : ∀ X : CountState, (countStmt rc s1 X).stack.length = X.stack.length :=
        fun X => (countStmt_stack rc s1 X).1
      have h1t : ∀ X : CountState, (countStmt rc s1 X).stack.tail = X.stack.tail :=
        fun X => (countStmt_stack rc s1 X).2
      have h2l : ∀ X : CountState, (countStmt rc s2 X).stack.length = X.stack.length :=
        fun X => (countStmt_stack rc s2 X).1
      have h2t : ∀ X : CountState, (countStmt rc s2 X).stack.tail = X.stack.tail :=
        fun X => (countStmt_stack rc s2 X).2
      constructor <;> simp [countStmt, h1l, h1t, h2l, h2t, recordStmt_stack]
  | .ifS id c tb eb, st => by
      have h1l : ∀ X : CountState, (countStmt rc tb X).stack.length = X.stack.length :=
        fun X => (countStmt_stack rc tb X).1
      have h1t : ∀ X : CountState, (countStmt rc tb X).stack.tail = X.stack.tail :=
        fun X => (countStmt_stack rc tb X).2
      have h2l : ∀ X : CountState, (countStmt rc eb X).stack.length = X.stack.length :=
        fun X => (countStmt_stack rc eb X).1
      have h2t : ∀ X : CountState, (countStmt rc eb X).stack.tail = X.stack.tail :=
        fun X => (countStmt_stack rc eb X).2
      constructor <;>
        simp [countStmt, h1l, h1t, h2l, h2t, countExpr_stack, recordStmt_stack]
  | .ifnS id c tb, st => by
      have h1l : ∀ X : CountState, (countStmt rc tb X).stack.length = X.stack.length :=
        fun X => (countStmt_stack rc tb X).1
      have h1t : ∀ X : CountState, (countStmt rc tb X).stack.tail = X.stack.tail :=
        fun X => (countStmt_stack rc tb X).2
      constructor <;>
        simp [countStmt, h1l, h1t, countExpr_stack, recordStmt_stack]
  | .whileS id c b, st => by
      have hbl : ∀ X : CountState, (countStmt rc b X).stack.length = X.stack.length :=
        fun X => (countStmt_stack rc b X).1
      have hbt : ∀ X : CountState, (countStmt rc b X).stack.tail = X.stack.tail :=
        fun X => (countStmt_stack rc b X).2
      constructor <;>
        simp [countStmt, countExpr_stack, popBC_stack, hbl, hbt,
          List.length_tail, recordStmt_stack]
  | .doS id b c, st => by
      have hbl : ∀ X : CountState, (countStmt rc b X).stack.length = X.stack.length :=
        fun X => (countStmt_stack rc b X).1
      have hbt : ∀ X : CountState, (countStmt rc b X).stack.tail = X.stack.tail :=
        fun X => (countStmt_stack rc b X).2
      constructor <;>
        simp [countStmt, countExpr_stack, popBC_stack, hbl, hbt,
          List.length_tail, recordStmt_stack]
  | .returnS id e, st => by
      constructor <;> simp [countStmt, countExpr_stack, recordStmt_stack]
  | .breakS id, st => by
      simp only [countStmt, recordStmt_stack]
      cases hstk : st.stack with
      | nil => constructor <;> simp [recordStmt_stack, hstk]
      | cons bc rest => constructor <;> simp [recordStmt_stack, hstk]
  | .continueS id, st => by
      simp only [countStmt, recordStmt_stack]
      cases hstk : st.stack with
      | nil => constructor <;> simp [recordStmt_stack, hstk]
      | cons bc rest => constructor <;> simp [recordStmt_stack, hstk]
  | .tryCatchS id b cs, st => by
      have h1l : ∀ X : CountState, (countStmt rc b X).stack.length = X.stack.length :=
        fun X => (countStmt_stack rc b X).1
      have h1t : ∀ X : CountState, (countStmt rc b X).stack.tail = X.stack.tail :=
        fun X => (countStmt_stack rc b X).2
      have h2l : ∀ X : CountState, (countCatches rc cs X).stack.length = X.stack.length :=
        fun X => (countCatches_stack rc cs X).1
      have h2t : ∀ X : CountState, (countCatches rc cs X).stack.tail = X.stack.tail :=
        fun X => (countCatches_stack rc cs X).2
      constructor <;> simp [countStmt, h1l, h1t, h2l, h2t, recordStmt_stack]
  | .nestedFuncS id fb, st => by
      constructor <;> simp [countStmt, recordStmt_stack]

theorem countCatches_stack (rc : Nat → Nat) : ∀ (cs : Catches) (st : CountState),
    (countCatches rc cs st).stack.length = st.stack.length ∧
    (countCatches rc cs st).stack.tail = st.stack.tail
  | .nil, st => by
      constructor <;> rfl
  | .cons cid h rest, st => by
      have h1l : ∀ X : CountState, (countStmt rc h X).stack.length = X.stack.length :=
        fun X => (countStmt_stack rc h X).1
      have h1t : ∀ X : CountState, (countStmt rc h X).stack.tail = X.stack.tail :=
        fun X => (countStmt_stack rc h X).2
      have h2l : ∀ X : CountState, (countCatches rc rest X).stack.length = X.stack.length :=
        fun X => (countCatches_stack rc rest X).1
      have h2t : ∀ X : CountState, (countCatches rc rest X).stack.tail = X.stack.tail :=
        fun X => (countCatches_stack rc rest X).2
      constructor <;> simp [countCatches, h1l, h1t, h2l, h2t]

end

mutual

theorem countStmt_lookup_outside (rc : Nat → Nat) : ∀ (s : Stmt) (st : CountState)
    (k : Nat), k ∉ stmtIds s →
    (countStmt rc s st).CountMap.lookup k = st.CountMap.lookup k
  | .expS id e, st, k => by
      intro hk
      have hkid : k ≠ id := fun h => hk (by simp [stmtIds, h])
      have hke : k ∉ exprIds e := fun h => hk (by simp [stmtIds, h])
      have hoe : ∀ X : CountState, (countExpr rc e X).CountMap.lookup k =
        X.CountMap.lookup k := fun X => countExpr_lookup_outside rc e X k hke
      simp only [countStmt, hoe, recordStmt_lookup_ne id st hkid]
  | .compoundS id s1 s2, st, k => by
      intro hk
      have hkid : k ≠ id := fun h => hk (by simp [stmtIds, h])
      have hk1 : k ∉ stmtIds s1 := fun h => hk (by simp [stmtIds, List.mem_append, h])
      have hk2 : k ∉ stmtIds s2 := fun h => hk (by simp [stmtIds, List.mem_append, h])
      have ho1 : ∀ X : CountState, (countStmt rc s1 X).CountMap.lookup k =
        X.CountMap.lookup k := fun X => countStmt_lookup_outside rc s1 X k hk1
      have ho2 : ∀ X : CountState, (countStmt rc s2 X).CountMap.lookup k =
        X.CountMap.lookup k := fun X => countStmt_lookup_outside rc s2 X k hk2
      simp only [countStmt, ho1, ho2, recordStmt_lookup_ne id st hkid]
  | .ifS id c tb eb, st, k => by
      intro hk
      have hkid : k ≠ id := fun h => hk (by simp [stmtIds, h])
      have hkc : k ∉ exprIds c := fun h => hk (by simp [stmtIds, List.mem_append, h])
      have hkt : k ∉ stmtIds tb := fun h => hk (by simp [stmtIds, List.mem_append, h])
      have hke : k ∉ stmtIds eb := fun h => hk (by simp [stmtIds, List.mem_append, h])
      have hoc : ∀ X : CountState, (countExpr rc c X).CountMap.lookup k =
        X.CountMap.lookup k := fun X => countExpr_lookup_outside rc c X k hkc
      have hot : ∀ X : CountState, (countStmt rc tb X).CountMap.lookup k =
        X.CountMap.lookup k := fun X => countStmt_lookup_outside rc tb X k hkt
      have hoe : ∀ X : CountState, (countStmt rc eb X).CountMap.lookup k =
        X.CountMap.lookup k := fun X => countStmt_lookup_outside rc eb X k hke
      have hnet : k ≠ stmtId tb := fun h => hkt (h ▸ stmtId_mem tb)
      have hnee : k ≠ stmtId eb := fun h => hke (h ▸ stmtId_mem eb)
      simp only [countStmt, hoc, hot, hoe, mapInsert_lookup_ne _ hnet,
        mapInsert_lookup_ne _ hnee, recordStmt_lookup_ne id st hkid]
  | .ifnS id c tb, st, k => by
      intro hk
      have hkid : k ≠ id := fun h => hk (by simp [stmtIds, h])
      have hkc : k ∉ exprIds c := fun h => hk (by simp [stmtIds, List.mem_append, h])
      have hkt : k ∉ stmtIds tb := fun h => hk (by simp [stmtIds, List.mem_append, h])
      have hoc : ∀ X : CountState, (countExpr rc c X).CountMap.lookup k =
        X.CountMap.lookup k := fun X => countExpr_lookup_outside rc c X k hkc
      have hot : ∀ X : CountState, (countStmt rc tb X).CountMap.lookup k =
        X.CountMap.lookup k := fun X => countStmt_lookup_outside rc tb X k hkt
      have hnet : k ≠ stmtId tb := fun h => hkt (h ▸ stmtId_mem tb)
      simp only [countStmt, hoc, hot, mapInsert_lookup_ne _ hnet,
        recordStmt_lookup_ne id st hkid]
  | .whileS id c b, st, k => by
      intro hk
      have hkid : k ≠ id := fun h => hk (by simp [stmtIds, h])
      have hkc : k ∉ exprIds c := fun h => hk (by simp [stmtIds, List.mem_append, h])
      have hkb : k ∉ stmtIds b := fun h => hk (by simp [stmtIds, List.mem_append, h])
      have hoc : ∀ X : CountState, (countExpr rc c X).CountMap.lookup k =
        X.CountMap.lookup k := fun X => countExpr_lookup_outside rc c X k hkc
      have hob : ∀ X : CountState, (countStmt rc b X).CountMap.lookup k =
        X.CountMap.lookup k := fun X => countStmt_lookup_outside rc b X k hkb
      have hneb : k ≠ stmtId b := fun h => hkb (h ▸ stmtId_mem b)
      have hnec : k ≠ exprId c := fun h => hkc (h ▸ exprId_mem c)
      simp only [countStmt, hoc, hob, popBC_map, mapInsert_lookup_ne _ hneb,
        mapInsert_lookup_ne _ hnec, recordStmt_lookup_ne id st hkid]
  | .doS id b c, st, k => by
      intro hk
      have hkid : k ≠ id := fun h => hk (by simp [stmtIds, h])
      have hkb : k ∉ stmtIds b := fun h => hk (by simp [stmtIds, List.mem_append, h])
      have hkc : k ∉ exprIds c := fun h => hk (by simp [stmtIds, List.mem_append, h])
      have hoc : ∀ X : CountState, (countExpr rc c X).CountMap.lookup k =
        X.CountMap.lookup k := fun X => countExpr_lookup_outside rc c X k hkc
      have hob : ∀ X : CountState, (countStmt rc b X).CountMap.lookup k =
        X.CountMap.lookup k := fun X => countStmt_lookup_outside rc b X k hkb
      have hneb : k ≠ stmtId b := fun h => hkb (h ▸ stmtId_mem b)
      have hnec : k ≠ exprId c := fun h => hkc (h ▸ exprId_mem c)
      simp only [countStmt, hoc, hob, popBC_map, mapInsert_lookup_ne _ hneb,
        mapInsert_lookup_ne _ hnec, recordStmt_lookup_ne id st hkid]
  | .returnS id e, st, k => by
      intro hk
      have hkid : k ≠ id := fun h => hk (by simp [stmtIds, h])
      have hke : k ∉ exprIds e := fun h => hk (by simp [stmtIds, h])
      have hoe : ∀ X : CountState, (countExpr rc e X).CountMap.lookup k =
        X.CountMap.lookup k := fun X => countExpr_lookup_outside rc e X k hke
      simp only [countStmt, hoe, recordStmt_lookup_ne id st hkid]
  | .breakS id, st, k => by
      intro hk
      have hkid : k ≠ id := fun h => hk (by simp [stmtIds, h])
      simp only [countStmt]
      cases hstk : (recordStmt id st).stack <;>
        simp [hstk, recordStmt_lookup_ne id st hkid]
  | .continueS id, st, k => by
      intro hk
      have hkid : k ≠ id := fun h => hk (by simp [stmtIds, h])
      simp only [countStmt]
      cases hstk : (recordStmt id st).stack <;>
        simp [hstk, recordStmt_lookup_ne id st hkid]
  | .tryCatchS id b cs, st, k => by
      intro hk
      have hkid : k ≠ id := fun h => hk (by simp [stmtIds, h])
      have hkb : k ∉ stmtIds b := fun h => hk (by simp [stmtIds, List.mem_append, h])
      have hkcs : k ∉ catchIds cs := fun h => hk (by simp [stmtIds, List.mem_append, h])
      have hob : ∀ X : CountState, (countStmt rc b X).CountMap.lookup k =
        X.CountMap.lookup k := fun X => countStmt_lookup_outside rc b X k hkb
      have hocs : ∀ X : CountState, (countCatches rc cs X).CountMap.lookup k =
        X.CountMap.lookup k := fun X => countCatches_lookup_outside rc cs X k hkcs
      simp only [countStmt, hob, hocs, recordStmt_lookup_ne id st hkid]
  | .nestedFuncS id fb, st, k => by
      intro hk
      have hkid : k ≠ id := fun h => hk (by simp [stmtIds, h])
      simp only [countStmt, recordStmt_lookup_ne id st hkid]

theorem countCatches_lookup_outside (rc : Nat → Nat) : ∀ (cs : Catches)
    (st : CountState) (k : Nat), k ∉ catchIds cs →
    (countCatches rc cs st).CountMap.lookup k = st.CountMap.lookup k
  | .nil, st, k => by
      intro _
      rfl
  | .cons cid h rest, st, k => by
      intro hk
      have hkh : k ∉ stmtIds h := fun hh => hk (by simp [catchIds, List.mem_append, hh])
      have hkr : k ∉ catchIds rest := fun hh => hk (by simp [catchIds, List.mem_append, hh])
      have hoh : ∀ X : CountState, (countStmt rc h X).CountMap.lookup k =
        X.CountMap.lookup k := fun X => countStmt_lookup_outside rc h X k hkh
      have hor : ∀ X : CountState, (countCatches rc rest X).CountMap.lookup k =
        X.CountMap.lookup k := fun X => countCatches_lookup_outside rc rest X k hkr
      simp only [countCatches, hoh, hor]

end

theorem countStmt_keeps (rc : Nat → Nat) (s : Stmt) (st : CountState) (k : Nat)
    (hk : k ∉ stmtSubIds s) (hv : st.CountMap.lookup k = some st.CurrentCount) :
    (countStmt rc s st).CountMap.lookup k = some st.CurrentCount := by
  cases s with
  | expS id e =>
      have hke : k ∉ exprIds e := fun h => hk (by
        show k ∈ exprIds e
        exact h)
      have hoe : ∀ X : CountState, (countExpr rc e X).CountMap.lookup k =
        X.CountMap.lookup k := fun X => countExpr_lookup_outside rc e X k hke
      simp only [countStmt, hoe]
      exact recordStmt_lookup id st hv
  | compoundS id s1 s2 =>
      have hk1 : k ∉ stmtIds s1 := fun h => hk (by
        show k ∈ stmtIds s1 ++ stmtIds s2
        simp [List.mem_append, h])
      have hk2 : k ∉ stmtIds s2 := fun h => hk (by
        show k ∈ stmtIds s1 ++ stmtIds s2
        simp [List.mem_append, h])
      have ho1 : ∀ X : CountState, (countStmt rc s1 X).CountMap.lookup k =
        X.CountMap.lookup k := fun X => countStmt_lookup_outside rc s1 X k hk1
      have ho2 : ∀ X : CountState, (countStmt rc s2 X).CountMap.lookup k =
        X.CountMap.lookup k := fun X => countStmt_lookup_outside rc s2 X k hk2
      simp only [countStmt, ho1, ho2]
      exact recordStmt_lookup id st hv
  | ifS id c tb eb =>
      have hkc : k ∉ exprIds c := fun h => hk (by
        show k ∈ exprIds c ++ stmtIds tb ++ stmtIds eb
        simp [List.mem_append, h])
      have hkt : k ∉ stmtIds tb := fun h => hk (by
        show k ∈ exprIds c ++ stmtIds tb ++ stmtIds eb
        simp [List.mem_append, h])
      have hke : k ∉ stmtIds eb := fun h => hk (by
        show k ∈ exprIds c ++ stmtIds tb ++ stmtIds eb
        simp [List.mem_append, h])
      have hoc : ∀ X : CountState, (countExpr rc c X).CountMap.lookup k =
        X.CountMap.lookup k := fun X => countExpr_lookup_outside rc c X k hkc
      have hot : ∀ X : CountState, (countStmt rc tb X).CountMap.lookup k =
        X.CountMap.lookup k := fun X => countStmt_lookup_outside rc tb X k hkt
      have hoe : ∀ X : CountState, (countStmt rc eb X).CountMap.lookup k =
        X.CountMap.lookup k := fun X => countStmt_lookup_outside rc eb X k hke
      have hnet : k ≠ stmtId tb := fun h => hkt (h ▸ stmtId_mem tb)
      have hnee : k ≠ stmtId eb := fun h => hke (h ▸ stmtId_mem eb)
      simp only [countStmt, hoc, hot, hoe, mapInsert_lookup_ne _ hnet,
        mapInsert_lookup_ne _ hnee]
      exact recordStmt_lookup id st hv
  | ifnS id c tb =>
      have hkc : k ∉ exprIds c := fun h => hk (by
        show k ∈ exprIds c ++ stmtIds tb
        simp [List.mem_append, h])
      have hkt : k ∉ stmtIds tb := fun h => hk (by
        show k ∈ exprIds c ++ stmtIds tb
        simp [List.mem_append, h])
      have hoc : ∀ X : CountState, (countExpr rc c X).CountMap.lookup k =
        X.CountMap.lookup k := fun X => countExpr_lookup_outside rc c X k hkc
      have hot : ∀ X : CountState, (countStmt rc tb X).CountMap.lookup k =
        X.CountMap.lookup k := fun X => countStmt_lookup_outside rc tb X k hkt
      have hnet : k ≠ stmtId tb := fun h => hkt (h ▸ stmtId_mem tb)
      simp only [countStmt, hoc, hot, mapInsert_lookup_ne _ hnet]
      exact recordStmt_lookup id st hv
  | whileS id c b =>
      have hkc : k ∉ exprIds c := fun h => hk (by
        show k ∈ exprIds c ++ stmtIds b
        simp [List.mem_append, h])
      have hkb : k ∉ stmtIds b := fun h => hk (by
        show k ∈ exprIds c ++ stmtIds b
        simp [List.mem_append, h])
      have hoc : ∀ X : CountState, (countExpr rc c X).CountMap.lookup k =
        X.CountMap.lookup k := fun X => countExpr_lookup_outside rc c X k hkc
      have hob : ∀ X : CountState, (countStmt rc b X).CountMap.lookup k =
        X.CountMap.lookup k := fun X => countStmt_lookup_outside rc b X k hkb
      have hneb : k ≠ stmtId b := fun h => hkb (h ▸ stmtId_mem b)
      have hnec : k ≠ exprId c := fun h => hkc (h ▸ exprId_mem c)
      simp only [countStmt, hoc, hob, popBC_map, mapInsert_lookup_ne _ hneb,
        mapInsert_lookup_ne _ hnec]
      exact recordStmt_lookup id st hv
  | doS id b c =>
      have hkb : k ∉ stmtIds b := fun h => hk (by
        show k ∈ stmtIds b ++ exprIds c
        simp [List.mem_append, h])
      have hkc : k ∉ exprIds c := fun h => hk (by
        show k ∈ stmtIds b ++ exprIds c
        simp [List.mem_append, h])
      have hoc : ∀ X : CountState, (countExpr rc c X).CountMap.lookup k =
        X.CountMap.lookup k := fun X => countExpr_lookup_outside rc c X k hkc
      have hob : ∀ X : CountState, (countStmt rc b X).CountMap.lookup k =
        X.CountMap.lookup k := fun X => countStmt_lookup_outside rc b X k hkb
      have hneb : k ≠ stmtId b := fun h => hkb (h ▸ stmtId_mem b)
      have hnec : k ≠ exprId c := fun h => hkc (h ▸ exprId_mem c)
      simp only [countStmt, hoc, hob, popBC_map, mapInsert_lookup_ne _ hneb,
        mapInsert_lookup_ne _ hnec]
      exact recordStmt_lookup id st hv
  | returnS id e =>
      have hke : k ∉ exprIds e := fun h => hk (by
        show k ∈ exprIds e
        exact h)
      have hoe : ∀ X : CountState, (countExpr rc e X).CountMap.lookup k =
        X.CountMap.lookup k := fun X => countExpr_lookup_outside rc e X k hke
      simp only [countStmt, hoe]
      exact recordStmt_lookup id st hv
  | breakS id =>
      simp only [countStmt]
      cases hstk : (recordStmt id st).stack with
      | nil =>
          simp only [hstk]
          exact recordStmt_lookup id st hv
      | cons bc rest =>
          simp only [hstk]
          exact recordStmt_lookup id st hv
  | continueS id =>
      simp only [countStmt]
      cases hstk : (recordStmt id st).stack with
      | nil =>
          simp only [hstk]
          exact recordStmt_lookup id st hv
      | cons bc rest =>
          simp only [hstk]
          exact recordStmt_lookup id st hv
  | tryCatchS id b cs =>
      have hkb : k ∉ stmtIds b := fun h => hk (by
        show k ∈ stmtIds b ++ catchIds cs
        simp [List.mem_append, h])
      have hkcs : k ∉ catchIds cs := fun h => hk (by
        show k ∈ stmtIds b ++ catchIds cs
        simp [List.mem_append, h])
      have hob : ∀ X : CountState, (countStmt rc b X).CountMap.lookup k =
        X.CountMap.lookup k := fun X => countStmt_lookup_outside rc b X k hkb
      have hocs : ∀ X : CountState, (countCatches rc cs X).CountMap.lookup k =
        X.CountMap.lookup k := fun X => countCatches_lookup_outside rc cs X k hkcs
      simp only [countStmt, hob, hocs]
      exact recordStmt_lookup id st hv
  | nestedFuncS id fb =>
      simp only [countStmt]
      exact recordStmt_lookup id st hv

/-- C2: an if statement reached with parent count `P` whose then-branch raw
counter is `T` with `T ≤ P` records then-count `T` on the then body, records
the else count `P - T` on the else body when present (it is used implicitly
otherwise), and sets the exit count to `thenExit + elseExit` (the counts at
the two branch exits); in particular a single if with no else, `P = 100`,
`T = 60` and a straight-line then body records then = 60, has implicit else
count 40, and exit count 100. -/
theorem if_flow_conservation (rc : Nat → Nat) (id : Nat) (c : Expr)
    (tb eb : Stmt) (st : CountState)
    (hnd : (stmtIds (Stmt.ifS id c tb eb)).Nodup)
    (hT : rc id ≤ st.CurrentCount) (hP : st.CurrentCount < W) :
    ((countStmt rc (Stmt.ifS id c tb eb) st).CountMap.lookup (stmtId tb) =
        some (rc id) ∧
      (countStmt rc (Stmt.ifS id c tb eb) st).CountMap.lookup (stmtId eb) =
        some (st.CurrentCount - rc id) ∧
      (countStmt rc (Stmt.ifS id c tb eb) st).CurrentCount =
        uadd (countStmt rc tb { countExpr rc c (recordStmt id st) with
            CurrentCount := rc id,
            CountMap := mapInsert (countExpr rc c (recordStmt id st)).CountMap
              (stmtId tb) (rc id) }).CurrentCount
          (countStmt rc eb { countStmt rc tb { countExpr rc c (recordStmt id st) with
              CurrentCount := rc id,
              CountMap := mapInsert (countExpr rc c (recordStmt id st)).CountMap
                (stmtId tb) (rc id) } with
            CurrentCount := st.CurrentCount - rc id,
            CountMap := mapInsert (countStmt rc tb { countExpr rc c (recordStmt id st) with
              CurrentCount := rc id,
              CountMap := mapInsert (countExpr rc c (recordStmt id st)).CountMap
                (stmtId tb) (rc id) }).CountMap
              (stmtId eb) (st.CurrentCount - rc id) }).CurrentCount ∧
      (countStmt rc (Stmt.ifS id c tb eb) st).RecordNextStmtCount = true) ∧
    ((countStmt rc (Stmt.ifnS id c tb) st).CountMap.lookup (stmtId tb) =
        some (rc id) ∧
      (countStmt rc (Stmt.ifnS id c tb) st).CurrentCount =
        uadd (countStmt rc tb { countExpr rc c (recordStmt id st) with
            CurrentCount := rc id,
            CountMap := mapInsert (countExpr rc c (recordStmt id st)).CountMap
              (stmtId tb) (rc id) }).CurrentCount
          (st.CurrentCount - rc id) ∧
      (countStmt rc (Stmt.ifnS id c tb) st).RecordNextStmtCount = true) ∧
    ((countStmt (fun i => if i = 1 then 60 else 0)
        (Stmt.ifnS 1 (Expr.atomE 2) (Stmt.expS 3 (Expr.atomE 4)))
        (CountState.mk 100 false [] [])).CountMap.lookup 3 = some 60 ∧
      (100 : Nat) - 60 = 40 ∧
      (countStmt (fun i => if i = 1 then 60 else 0)
        (Stmt.ifnS 1 (Expr.atomE 2) (Stmt.expS 3 (Expr.atomE 4)))
        (CountState.mk 100 false [] [])).CurrentCount = 100) := by
  have hTW : rc id < W := lt_of_le_of_lt hT hP
  have hmod : rc id % W = rc id := Nat.mod_eq_of_lt hTW
  have husub : usub st.CurrentCount (rc id) = st.CurrentCount - rc id :=
    usub_of_le hT hP
  have hndSub : (stmtSubIds (Stmt.ifS id c tb eb)).Nodup := (nodup_parts hnd).1
  have hndSub' : (exprIds c ++ stmtIds tb ++ stmtIds eb).Nodup := hndSub
  obtain ⟨hndCB, hndEb, hdisjEb⟩ := nodup_append_parts hndSub'
  obtain ⟨hndC, hndTb, hdisjTb⟩ := nodup_append_parts hndCB
  have htbSub : stmtId tb ∉ stmtSubIds tb := (nodup_parts hndTb).2
  have hebSub : stmtId eb ∉ stmtSubIds eb := (nodup_parts hndEb).2
  have hcSub : (exprIds c).Nodup := hndC
  have htbNotEb : stmtId tb ∉ stmtIds eb := by
    intro hmem
    exact hdisjEb (stmtId tb) hmem (List.mem_append_right _ (stmtId_mem tb))
  have hebNeTb : stmtId tb ≠ stmtId eb := by
    intro h
    exact htbNotEb (h ▸ stmtId_mem eb)
  refine ⟨?_, ?_, by decide⟩
  · simp only [countStmt, recordStmt_cur, hmod, husub]
    refine ⟨?_, ?_, by trivial, by trivial⟩
    · rw [countStmt_lookup_outside rc eb _ _ htbNotEb,
        mapInsert_lookup_ne _ hebNeTb]
      exact countStmt_keeps rc tb _ _ htbSub (mapInsert_lookup_self _ _)
    · exact countStmt_keeps rc eb _ _ hebSub (mapInsert_lookup_self _ _)
  · simp only [countStmt, recordStmt_cur, hmod, husub]
    refine ⟨?_, by trivial, by trivial⟩
    exact countStmt_keeps rc tb _ _ htbSub (mapInsert_lookup_self _ _)

/-- Witness for C2: if with else at `P = 100`, `T = 60`. -/
theorem if_flow_conservation_witness :
    ((stmtIds (Stmt.ifS 1 (Expr.atomE 2) (Stmt.expS 3 (Expr.atomE 4))
        (Stmt.expS 5 (Expr.atomE 6)))).Nodup ∧
      (fun i : Nat => if i = 1 then (60 : Nat) else 0) 1 ≤
        (CountState.mk 100 false [] []).CurrentCount ∧
      (CountState.mk 100 false [] []).CurrentCount < W) ∧
    (countStmt (fun i : Nat => if i = 1 then (60 : Nat) else 0)
      (Stmt.ifS 1 (Expr.atomE 2) (Stmt.expS 3 (Expr.atomE 4)) (Stmt.expS 5 (Expr.atomE 6)))
      (CountState.mk 100 false [] [])).CountMap.lookup 3 = some 60 ∧
    (countStmt (fun i : Nat => if i = 1 then (60 : Nat) else 0)
      (Stmt.ifS 1 (Expr.atomE 2) (Stmt.expS 3 (Expr.atomE 4)) (Stmt.expS 5 (Expr.atomE 6)))
      (CountState.mk 100 false [] [])).CountMap.lookup 5 = some 40 ∧
    (countStmt (fun i : Nat => if i = 1 then (60 : Nat) else 0)
      (Stmt.ifS 1 (Expr.atomE 2) (Stmt.expS 3 (Expr.atomE 4)) (Stmt.expS 5 (Expr.atomE 6)))
      (CountState.mk 100 false [] [])).CurrentCount = 100 :=
  ⟨⟨by decide, by decide, by decide⟩,
    (if_flow_conservation (fun i : Nat => if i = 1 then (60 : Nat) else 0) 1
      (Expr.atomE 2) (Stmt.expS 3 (Expr.atomE 4)) (Stmt.expS 5 (Expr.atomE 6))
      (CountState.mk 100 false [] []) (by decide) (by decide) (by decide)).1.1,
    (if_flow_conservation (fun i : Nat => if i = 1 then (60 : Nat) else 0) 1
      (Expr.atomE 2) (Stmt.expS 3 (Expr.atomE 4)) (Stmt.expS 5 (Expr.atomE 6))
      (CountState.mk 100 false [] []) (by decide) (by decide) (by decide)).1.2.1,
    (if_flow_conservation (fun i : Nat => if i = 1 then (60 : Nat) else 0) 1
      (Expr.atomE 2) (Stmt.expS 3 (Expr.atomE 4)) (Stmt.expS 5 (Expr.atomE 6))
      (CountState.mk 100 false [] []) (by decide) (by decide) (by decide)).1.2.2.1⟩

theorem exprIds_eq (e : Expr) : exprIds e = exprId e :: exprSubIds e := by
  cases e <;> rfl

theorem expr_nodup_parts {e : Expr} (h : (exprIds e).Nodup) :
    (exprSubIds e).Nodup ∧ exprId e ∉ exprSubIds e := by
  rw [exprIds_eq, List.nodup_cons] at h
  exact ⟨h.2, h.1⟩

/-- C3: a while loop reached with parent count `P` records the condition
entry count `CondCount = P + BackedgeCount + ContinueCount` on the
condition, records the raw body counter on the body, and sets the exit
count to `BreakCount + CondCount - BodyCount`; in particular for `P = 5`,
body raw counter 5, no breaks and no continues, the recorded condition
count is 10 and the exit count is `0 + CondCount - 5`. -/
theorem while_flow (rc : Nat → Nat) (id : Nat) (c : Expr) (b : Stmt)
    (st : CountState) (hnd : (stmtIds (Stmt.whileS id c b)).Nodup) :
    ((countStmt rc (Stmt.whileS id c b) st).CountMap.lookup (exprId c) =
        some (uadd (uadd st.CurrentCount
            (countStmt rc b { recordStmt id st with
              CurrentCount := rc id % W,
              CountMap := mapInsert (recordStmt id st).CountMap (stmtId b) (rc id % W),
              stack := ⟨0, 0⟩ :: (recordStmt id st).stack }).CurrentCount)
          (popBC (countStmt rc b { recordStmt id st with
              CurrentCount := rc id % W,
              CountMap := mapInsert (recordStmt id st).CountMap (stmtId b) (rc id % W),
              stack := ⟨0, 0⟩ :: (recordStmt id st).stack })).1.ContinueCount) ∧
      (countStmt rc (Stmt.whileS id c b) st).CountMap.lookup (stmtId b) =
        some (rc id % W) ∧
      (countStmt rc (Stmt.whileS id c b) st).CurrentCount =
        usub (uadd (popBC (countStmt rc b { recordStmt id st with
              CurrentCount := rc id % W,
              CountMap := mapInsert (recordStmt id st).CountMap (stmtId b) (rc id % W),
              stack := ⟨0, 0⟩ :: (recordStmt id st).stack })).1.BreakCount
            (uadd (uadd st.CurrentCount
              (countStmt rc b { recordStmt id st with
                CurrentCount := rc id % W,
                CountMap := mapInsert (recordStmt id st).CountMap (stmtId b) (rc id % W),
                stack := ⟨0, 0⟩ :: (recordStmt id st).stack }).CurrentCount)
            (popBC (countStmt rc b { recordStmt id st with
                CurrentCount := rc id % W,
                CountMap := mapInsert (recordStmt id st).CountMap (stmtId b) (rc id % W),
                stack := ⟨0, 0⟩ :: (recordStmt id st).stack })).1.ContinueCount))
          (rc id % W) ∧
      (countStmt rc (Stmt.whileS id c b) st).RecordNextStmtCount = true) ∧
    ((countStmt (fun i : Nat => if i = 1 then (5 : Nat) else 0)
        (Stmt.whileS 1 (Expr.atomE 2) (Stmt.expS 3 (Expr.atomE 4)))
        (CountState.mk 5 false [] [])).CountMap.lookup 2 = some 10 ∧
      (countStmt (fun i : Nat => if i = 1 then (5 : Nat) else 0)
        (Stmt.whileS 1 (Expr.atomE 2) (Stmt.expS 3 (Expr.atomE 4)))
        (CountState.mk 5 false [] [])).CountMap.lookup 3 = some 5 ∧
      (countStmt (fun i : Nat => if i = 1 then (5 : Nat) else 0)
        (Stmt.whileS 1 (Expr.atomE 2) (Stmt.expS 3 (Expr.atomE 4)))
        (CountState.mk 5 false [] [])).CurrentCount = usub (uadd 0 10) 5) := by
  have hndSub : (stmtSubIds (Stmt.whileS id c b)).Nodup := (nodup_parts hnd).1
  have hndSub' : (exprIds c ++ stmtIds b).Nodup := hndSub
  obtain ⟨hndC, hndB, hdisjB⟩ := nodup_append_parts hndSub'
  have hbSub : stmtId b ∉ stmtSubIds b := (nodup_parts hndB).2
  have hcSub : exprId c ∉ exprSubIds c := (expr_nodup_parts hndC).2
  have hbNotC : stmtId b ∉ exprIds c := hdisjB (stmtId b) (stmtId_mem b)
  have hbNeC : stmtId b ≠ exprId c := fun h => hbNotC (h ▸ exprId_mem c)
  refine ⟨?_, by refine ⟨by decide, by decide, by decide⟩⟩
  obtain ⟨f, hf⟩ : ∃ f, (countStmt rc b { recordStmt id st with
      CurrentCount := rc id % W,
      CountMap := mapInsert (recordStmt id st).CountMap (stmtId b) (rc id % W),
      stack := ⟨0, 0⟩ :: (recordStmt id st).stack }).stack =
      f :: (recordStmt id st).stack := by
    have hlenB := (countStmt_stack rc b { recordStmt id st with
      CurrentCount := rc id % W,
      CountMap := mapInsert (recordStmt id st).CountMap (stmtId b) (rc id % W),
      stack := ⟨0, 0⟩ :: (recordStmt id st).stack }).1
    have htailB := (countStmt_stack rc b { recordStmt id st with
      CurrentCount := rc id % W,
      CountMap := mapInsert (recordStmt id st).CountMap (stmtId b) (rc id % W),
      stack := ⟨0, 0⟩ :: (recordStmt id st).stack }).2
    cases hs : (countStmt rc b { recordStmt id st with
      CurrentCount := rc id % W,
      CountMap := mapInsert (recordStmt id st).CountMap (stmtId b) (rc id % W),
      stack := ⟨0, 0⟩ :: (recordStmt id st).stack }).stack with
    | nil =>
        rw [hs] at hlenB
        simp at hlenB
    | cons f r =>
        refine ⟨f, ?_⟩
        rw [hs] at htailB
        simp only [List.tail_cons] at htailB
        rw [htailB]
  simp only [countStmt, recordStmt_cur, popBC, hf]
  refine ⟨?_, ?_, by trivial, by trivial⟩
  · apply countExpr_keeps rc c _ _ hcSub
    exact mapInsert_lookup_self _ _
  · rw [countExpr_lookup_outside rc c _ _ hbNotC, mapInsert_lookup_ne _ hbNeC]
    apply countStmt_keeps rc b _ _ hbSub
    exact mapInsert_lookup_self _ _

/-- Witness for C3 at `P = 5`, body raw counter 5, no breaks or continues. -/
theorem while_flow_witness :
    (stmtIds (Stmt.whileS 1 (Expr.atomE 2) (Stmt.expS 3 (Expr.atomE 4)))).Nodup ∧
    (countStmt (fun i : Nat => if i = 1 then (5 : Nat) else 0)
      (Stmt.whileS 1 (Expr.atomE 2) (Stmt.expS 3 (Expr.atomE 4)))
      (CountState.mk 5 false [] [])).CountMap.lookup 2 = some 10 ∧
    (countStmt (fun i : Nat => if i = 1 then (5 : Nat) else 0)
      (Stmt.whileS 1 (Expr.atomE 2) (Stmt.expS 3 (Expr.atomE 4)))
      (CountState.mk 5 false [] [])).CountMap.lookup 3 = some 5 ∧
    (countStmt (fun i : Nat => if i = 1 then (5 : Nat) else 0)
      (Stmt.whileS 1 (Expr.atomE 2) (Stmt.expS 3 (Expr.atomE 4)))
      (CountState.mk 5 false [] [])).CurrentCount = usub (uadd 0 10) 5 :=
  ⟨by decide,
    (while_flow (fun i : Nat => if i = 1 then (5 : Nat) else 0) 1 (Expr.atomE 2)
      (Stmt.expS 3 (Expr.atomE 4)) (CountState.mk 5 false [] []) (by decide)).1.1,
    (while_flow (fun i : Nat => if i = 1 then (5 : Nat) else 0) 1 (Expr.atomE 2)
      (Stmt.expS 3 (Expr.atomE 4)) (CountState.mk 5 false [] []) (by decide)).1.2.1,
    (while_flow (fun i : Nat => if i = 1 then (5 : Nat) else 0) 1 (Expr.atomE 2)
      (Stmt.expS 3 (Expr.atomE 4)) (CountState.mk 5 false [] []) (by decide)).1.2.2.1⟩

/-- Counterexample for C4: a do statement with parent count 7 and body raw
counter 10 (straight-line body, so BackedgeCount = 10).  The claim predicts
a recorded condition-entry count of `Parent + Backedge + Continue = 17` and
an exit count of `Break + Cond - Body`; the code records condition count
`Backedge + Continue = 10` and produces exit count 7, not
`0 + 10 - 10 = 0`. -/
theorem do_flow_counterexample :
    (countStmt (fun i : Nat => if i = 1 then (10 : Nat) else 0)
      (Stmt.doS 1 (Stmt.expS 2 (Expr.atomE 3)) (Expr.atomE 4))
      (CountState.mk 7 false [] [])).CountMap.lookup 4 = some 10 ∧
    (10 : Nat) ≠ uadd (uadd 7 10) 0 ∧
    (countStmt (fun i : Nat => if i = 1 then (10 : Nat) else 0)
      (Stmt.doS 1 (Stmt.expS 2 (Expr.atomE 3)) (Expr.atomE 4))
      (CountState.mk 7 false [] [])).CurrentCount = 7 ∧
    (7 : Nat) ≠ usub (uadd 0 10) 10 := by
  refine ⟨by decide, by decide, by decide, by decide⟩

/-- C4 (amended): a do statement reached with fall-through count `F` records
the condition entry count `CondCount = BackedgeCount + ContinueCount` (the
parent count flows into the body, not the condition), records the raw body
counter on the body, and sets the exit count to
`BreakCount + CondCount - (BodyCount - FallThroughCount)`. -/
theorem do_flow (rc : Nat → Nat) (id : Nat) (b : Stmt) (c : Expr)
    (st : CountState) (hnd : (stmtIds (Stmt.doS id b c)).Nodup) :
    (countStmt rc (Stmt.doS id b c) st).CountMap.lookup (exprId c) =
        some (uadd (countStmt rc b { recordStmt id st with
            CurrentCount := rc id % W,
            CountMap := mapInsert (recordStmt id st).CountMap (stmtId b) (rc id % W),
            stack := ⟨0, 0⟩ :: (recordStmt id st).stack }).CurrentCount
          (popBC (countStmt rc b { recordStmt id st with
            CurrentCount := rc id % W,
            CountMap := mapInsert (recordStmt id st).CountMap (stmtId b) (rc id % W),
            stack := ⟨0, 0⟩ :: (recordStmt id st).stack })).1.ContinueCount) ∧
      (countStmt rc (Stmt.doS id b c) st).CountMap.lookup (stmtId b) =
        some (rc id % W) ∧
      (countStmt rc (Stmt.doS id b c) st).CurrentCount =
        usub (uadd (popBC (countStmt rc b { recordStmt id st with
              CurrentCount := rc id % W,
              CountMap := mapInsert (recordStmt id st).CountMap (stmtId b) (rc id % W),
              stack := ⟨0, 0⟩ :: (recordStmt id st).stack })).1.BreakCount
            (uadd (countStmt rc b { recordStmt id st with
              CurrentCount := rc id % W,
              CountMap := mapInsert (recordStmt id st).CountMap (stmtId b) (rc id % W),
              stack := ⟨0, 0⟩ :: (recordStmt id st).stack }).CurrentCount
            (popBC (countStmt rc b { recordStmt id st with
              CurrentCount := rc id % W,
              CountMap := mapInsert (recordStmt id st).CountMap (stmtId b) (rc id % W),
              stack := ⟨0, 0⟩ :: (recordStmt id st).stack })).1.ContinueCount))
          (usub (rc id % W) st.CurrentCount) ∧
      (countStmt rc (Stmt.doS id b c) st).RecordNextStmtCount = true := by
  have hndSub : (stmtSubIds (Stmt.doS id b c)).Nodup := (nodup_parts hnd).1
  have hndSub' : (stmtIds b ++ exprIds c).Nodup := hndSub
  obtain ⟨hndB, hndC, hdisjC⟩ := nodup_append_parts hndSub'
  have hbSub : stmtId b ∉ stmtSubIds b := (nodup_parts hndB).2
  have hcSub : exprId c ∉ exprSubIds c := (expr_nodup_parts hndC).2
  have hbNotC : stmtId b ∉ exprIds c := fun h => hdisjC (stmtId b) h (stmtId_mem b)
  have hbNeC : stmtId b ≠ exprId c := fun h => hbNotC (h ▸ exprId_mem c)
  obtain ⟨f, hf⟩ : ∃ f, (countStmt rc b { recordStmt id st with
      CurrentCount := rc id % W,
      CountMap := mapInsert (recordStmt id st).CountMap (stmtId b) (rc id % W),
      stack := ⟨0, 0⟩ :: (recordStmt id st).stack }).stack =
      f :: (recordStmt id st).stack := by
    have hlenB := (countStmt_stack rc b { recordStmt id st with
      CurrentCount := rc id % W,
      CountMap := mapInsert (recordStmt id st).CountMap (stmtId b) (rc id % W),
      stack := ⟨0, 0⟩ :: (recordStmt id st).stack }).1
    have htailB := (countStmt_stack rc b { recordStmt id st with
      CurrentCount := rc id % W,
      CountMap := mapInsert (recordStmt id st).CountMap (stmtId b) (rc id % W),
      stack := ⟨0, 0⟩ :: (recordStmt id st).stack }).2
    cases hs : (countStmt rc b { recordStmt id st with
      CurrentCount := rc id % W,
      CountMap := mapInsert (recordStmt id st).CountMap (stmtId b) (rc id % W),
      stack := ⟨0, 0⟩ :: (recordStmt id st).stack }).stack with
    | nil =>
        rw [hs] at hlenB
        simp at hlenB
    | cons f r =>
        refine ⟨f, ?_⟩
        rw [hs] at htailB
        simp only [List.tail_cons] at htailB
        rw [htailB]
  simp only [countStmt, recordStmt_cur, popBC, hf]
  refine ⟨?_, ?_, by trivial, by trivial⟩
  · apply countExpr_keeps rc c _ _ hcSub
    exact mapInsert_lookup_self _ _
  · rw [countExpr_lookup_outside rc c _ _ hbNotC, mapInsert_lookup_ne _ hbNeC]
    apply countStmt_keeps rc b _ _ hbSub
    exact mapInsert_lookup_self _ _

/-- Witness for the amended C4 at fall-through count 7 and body raw
counter 10. -/
theorem do_flow_witness :
    (stmtIds (Stmt.doS 1 (Stmt.expS 2 (Expr.atomE 3)) (Expr.atomE 4))).Nodup ∧
    (countStmt (fun i : Nat => if i = 1 then (10 : Nat) else 0)
      (Stmt.doS 1 (Stmt.expS 2 (Expr.atomE 3)) (Expr.atomE 4))
      (CountState.mk 7 false [] [])).CountMap.lookup 4 = some 10 ∧
    (countStmt (fun i : Nat => if i = 1 then (10 : Nat) else 0)
      (Stmt.doS 1 (Stmt.expS 2 (Expr.atomE 3)) (Expr.atomE 4))
      (CountState.mk 7 false [] [])).CountMap.lookup 2 = some 10 ∧
    (countStmt (fun i : Nat => if i = 1 then (10 : Nat) else 0)
      (Stmt.doS 1 (Stmt.expS 2 (Expr.atomE 3)) (Expr.atomE 4))
      (CountState.mk 7 false [] [])).CurrentCount = 7 :=
  ⟨by decide,
    (do_flow (fun i : Nat => if i = 1 then (10 : Nat) else 0) 1
      (Stmt.expS 2 (Expr.atomE 3)) (Expr.atomE 4)
      (CountState.mk 7 false [] []) (by decide)).1,
    (do_flow (fun i : Nat => if i = 1 then (10 : Nat) else 0) 1
      (Stmt.expS 2 (Expr.atomE 3)) (Expr.atomE 4)
      (CountState.mk 7 false [] []) (by decide)).2.1,
    (do_flow (fun i : Nat => if i = 1 then (10 : Nat) else 0) 1
      (Stmt.expS 2 (Expr.atomE 3)) (Expr.atomE 4)
      (CountState.mk 7 false [] []) (by decide)).2.2.1⟩

end LdcPgo
